import Mathlib

/-!
# SNI probe (`util/sni/sni.go`): classifier, worker and address pool

A shallow embedding of `checkError`, `hello` and `worker` of `sni.go`, together
with the `addrs` channel, the pool-filling goroutine of `main` and the detached
release goroutines, as an event-driven transition function.
-/

deriving instance DecidableEq for Except

namespace Sni

/-! ## Errors and the classifier -/

/-- Error values as the type switch of `checkError` sees them: the dynamic type
(`*net.OpError`, `syscall.Errno`, `tls.RecordHeaderError`, `x509.HostnameError`, any
other), and for each type the observations the code makes (`t.Op`, `t.Timeout()`,
`err.Error()`, the errno number). -/
inductive GoError where
  | opError (op : String) (timeout : Bool) (msg : String)
  | errno (n : Nat)
  | recordHeaderError (msg : String)
  | hostnameError (msg : String)
  | other (msg : String)
deriving DecidableEq, Repr

/-- The value of `syscall.ECONNREFUSED` (linux). -/
def ECONNREFUSED : Nat := 111

/-- Substring test on character lists. -/
def containsChars : List Char → List Char → Bool
  | [], sub => sub.isEmpty
  | c :: cs, sub => sub.isPrefixOf (c :: cs) || containsChars cs sub

/-- The function `strings.Contains`. -/
def strContains (s sub : String) : Bool :=
  containsChars s.toList sub.toList

/-- The function `checkError` (sni.go lines 305-368). The argument is `none` for a
nil error. `Except.error` is the `log.Panic(err)` of the TOOMANYFILES branch,
carrying the message. -/
def checkError : Option GoError → Except String String
  | none => .ok ""
  | some (.opError op timeout msg) =>
    if op = "dial" then
      if timeout then .ok "Timeout"
      else if strContains msg "connect: connection refused" then .ok "Refused"
      else if strContains msg "socket: too many open files" then .error msg
      else if strContains msg "connect: network is unreachable" then .ok "UNREACHABLE"
      else .ok "Unexpected"
    else if op = "read" then
      if timeout then .ok "Timeout"
      else if strContains msg "read: connection reset by peer" then .ok "RST"
      else .ok "Unexpected"
    else .ok ""
  | some (.errno n) =>
    if n = ECONNREFUSED then .ok "Timeout" else .ok "Unexpected"
  | some (.recordHeaderError _) => .ok "TLSRecordHeaderError"
  | some (.hostnameError _) => .ok "X509HostnameError"
  | some (.other msg) =>
    if msg = "EOF" ∨ msg = "unexpected EOF" then .ok "EOF" else .ok "Unexpected"

/-! ## The handshake helper -/

/-- The read loop of `hello` (lines 284-295): `okReads` calls of `io.ReadFull` fill
the buffer and are logged, the next one fails with `readErr`, which is passed to
`checkError` for printing and ends the loop; the loop variable `err` then holds
`readErr`. -/
def readLoop : Nat → GoError → Except String GoError
  | 0, readErr => (checkError (some readErr)).map (fun _ => readErr)
  | n + 1, readErr => readLoop n readErr

/-- The function `hello` (lines 270-298). `connNonNil` is `conn != nil`,
`handshakeErr` what `connt.Handshake()` returns, `okReads` and `readErr` what the
connection then delivers to `io.ReadFull`. The result is the returned `err`
(`none` for nil). With a nil `conn` the call `connt.SetDeadline` (line 276) is a method
call on a nil interface and panics before anything else happens; `worker` calls `hello`
with the connection of a successful dial, which is not nil. -/
def hello (connNonNil : Bool) (handshakeErr : Option GoError) (okReads : Nat)
    (readErr : GoError) : Except String (Option GoError) :=
  if connNonNil then
    -- `err = connt.Handshake()`
    let _err := handshakeErr
    -- the loop assigns `length, err = io.ReadFull(conn, buff)` until `err != nil`
    (readLoop okReads readErr).map some
  else
    .error "runtime error: invalid memory address or nil pointer dereference"

/-! ## Time -/

/-- One second as a `time.Duration` (nanoseconds). -/
def second : Int := 1000000000

/-- Largest `time.Duration`. -/
def maxDuration : Int := 2 ^ 63 - 1

/-- Smallest `time.Duration`. -/
def minDuration : Int := -(2 ^ 63)

/-- The method `Time.Sub`: the difference of two instants (nanoseconds since the
epoch), saturated to the range of `time.Duration`. -/
def timeSub (t u : Nat) : Int :=
  let d : Int := (t : Int) - (u : Int)
  if d > maxDuration then maxDuration else if d < minDuration then minDuration else d

/-- The method `Duration.Milliseconds`. -/
def milliseconds (d : Int) : Int := d.tdiv 1000000

/-- The value of an integer expression computed in `int64`: reduced modulo `2 ^ 64` into
the range from `-(2 ^ 63)` to `2 ^ 63 - 1`. -/
def wrapInt64 (x : Int) : Int := (x + 2 ^ 63) % 2 ^ 64 - 2 ^ 63

/-- The method `Time.UnixMilli` of an instant given in nanoseconds since the epoch:
`t.unixSec()*1e3 + int64(t.nsec())/1e6`, computed in `int64`. -/
def unixMilli (t : Nat) : Int :=
  wrapInt64 (((t / 1000000000 : Nat) : Int) * 1000 + ((t % 1000000000 / 1000000 : Nat) : Int))

/-- Decimal rendering of an integer: `strconv.FormatInt(n, 10)` and
`fmt.Sprintf("%v", n)`. -/
def formatInt (n : Int) : String := toString n

/-! ## The worker body -/

/-- What the body of the attempt loop decides for one attempt: the classification,
whether the loop is left (`success`), and the arguments of the release goroutine
(`reuseAddr`, `delay`). -/
structure Decision where
  code : String
  success : Bool
  reuseAddr : Bool
  delay : Int
deriving DecidableEq, Repr

/-- Lines 64-97 of `worker`: the branch `err != nil` after `dialer.Dial`. The code
computed here is the block-local `code := checkError(err)`; the branch always ends
in `continue`, hence `success = false`. -/
def tcpFailure (err : GoError) : Except String Decision :=
  (checkError (some err)).map fun code =>
    if code = "Timeout" then ⟨code, false, true, 30 * second⟩
    else if code = "Refused" then ⟨code, false, false, 0⟩
    else if code = "EOF" then ⟨code, false, true, 0⟩
    else if code = "UNREACHABLE" then ⟨code, false, false, 0⟩
    else ⟨code, false, true, 0⟩

/-- Lines 105-131 of `worker`: the classification of what `hello` returned
(`herr`, `none` for nil) and the decision taken on the code. `residual` is the
value of the flag `-residual`. -/
def tlsStage (residual : Int) (herr : Option GoError) : Except String Decision :=
  (match herr with
    | some e => checkError (some e)
    | none => .ok "Success").map fun code =>
    if code = "Timeout" then ⟨code, true, true, 0⟩
    else if code = "RST" then ⟨code, true, true, residual⟩
    else if code = "Success" then ⟨code, true, true, 0⟩
    else if code = "TLSRecordHeaderError" ∨ code = "X509HostnameError" then
      ⟨code, false, false, 0⟩
    else if code = "EOF" then ⟨code, true, true, 0⟩
    else ⟨code, false, true, 0⟩

/-- The variables `stage`, `code`, `addr`, `startTime` that `worker` declares per job
(lines 53-56). -/
structure Vars where
  stage : String
  code : String
  addr : String
  startTime : Nat
deriving DecidableEq, Repr

/-- Their values before the first borrow. The start time is overwritten by every borrow
and only read after one, so the zero `time.Time` is stood for by 0. -/
def Vars.zero : Vars := ⟨"", "", "", 0⟩

/-- The record sent on `results` (lines 145-149); `endTime` is the `time.Now()` of
line 145. -/
def record (j : String) (v : Vars) (endTime : Nat) : List String :=
  [formatInt (unixMilli v.startTime), j, v.stage, v.code, v.addr,
    formatInt (milliseconds (timeSub endTime v.startTime))]

/-! ## Workers, pool and release goroutines as a transition function -/

/-- Program points at which a worker goroutine waits. -/
inductive WState where
  /-- at `for j := range jobs` (line 45) -/
  | recvJob
  /-- at `for addr = range addrs` (line 57), working on job `j` -/
  | recvAddr (j : String) (v : Vars)
  /-- inside `dialer.Dial("tcp", addr)` (line 63); the attempt holds `v.addr` -/
  | dial (j : String) (v : Vars)
  /-- inside `hello(conn, j)` (line 104); the attempt holds `v.addr` -/
  | hello (j : String) (v : Vars)
  /-- after `break`, before lines 145-149 -/
  | report (j : String) (v : Vars)
  /-- the loop over `jobs` has ended -/
  | returned
deriving DecidableEq, Repr

/-- A detached release goroutine (lines 90-95 and 132-137): it sleeps until `wake`
and then pushes `a` to `addrs` if `reuse`. -/
structure Release where
  a : String
  reuse : Bool
  wake : Nat
deriving DecidableEq, Repr

/-- The flags and sizes fixed by `main`: `-residual` and the capacity of `addrs`. -/
structure Config where
  residual : Int
  maxNumAddrs : Nat
deriving DecidableEq, Repr

/-- A state of the run. `jobs` are the lines not yet received by a worker (the
channel `jobs` is closed after the last one), `feed` the addresses the pool-filling
goroutine of `main` (lines 230-239) has not pushed yet, `addrs` the content of the
channel `addrs` in FIFO order, `pending` the release goroutines still alive,
`results` the records sent so far, `crashed` whether `log.Panic` ended the process. -/
structure State where
  now : Nat
  jobs : List String
  feed : List String
  addrs : List String
  workers : List WState
  pending : List Release
  results : List (List String)
  crashed : Bool
deriving DecidableEq, Repr

/-- What the scheduler, the clock and the network can do next. -/
inductive Event where
  /-- time passes -/
  | tick (dt : Nat)
  /-- the pool-filling goroutine pushes its next address (line 235) -/
  | feedAddr
  /-- worker `w` receives from `jobs`, or finds it closed -/
  | recvJob (w : Nat)
  /-- worker `w` receives from `addrs` -/
  | recvAddr (w : Nat)
  /-- the call `dialer.Dial` of worker `w` returns `err` (`none`: a connection) -/
  | dialDone (w : Nat) (err : Option GoError)
  /-- the call `hello` of worker `w` ends, the network having behaved as given -/
  | helloDone (w : Nat) (handshakeErr : Option GoError) (okReads : Nat) (readErr : GoError)
  /-- worker `w` runs lines 145-149 -/
  | send (w : Nat)
  /-- the `i`-th pending release goroutine wakes up -/
  | wake (i : Nat)
deriving DecidableEq, Repr

/-- The worker's part of a transition: the release goroutine started for the attempt
on `v.addr` at time `now`, `time.Sleep` taking a non-positive delay as zero. -/
def Decision.release (d : Decision) (v : Vars) (now : Nat) : Release :=
  ⟨v.addr, d.reuseAddr, now + d.delay.toNat⟩

/-- One transition; `none` when the event is not enabled in the state. -/
def step (cfg : Config) (s : State) (e : Event) : Option State :=
  if s.crashed then none else
  match e with
  | .tick dt => some { s with now := s.now + dt }
  | .feedAddr =>
    match s.feed with
    | [] => none
    | a :: rest =>
      if s.addrs.length < cfg.maxNumAddrs then
        some { s with feed := rest, addrs := s.addrs ++ [a] }
      else none
  | .recvJob w =>
    match s.workers[w]? with
    | some .recvJob =>
      match s.jobs with
      | [] => some { s with workers := s.workers.set w .returned }
      | j :: rest =>
        if j.length = 0 then some { s with jobs := rest }
        else some { s with jobs := rest, workers := s.workers.set w (.recvAddr j Vars.zero) }
    | _ => none
  | .recvAddr w =>
    match s.workers[w]? with
    | some (.recvAddr j v) =>
      match s.addrs with
      | [] => none
      | a :: rest =>
        some { s with
          addrs := rest
          workers := s.workers.set w
            (.dial j { v with addr := a, startTime := s.now, stage := "TCP" }) }
    | _ => none
  | .dialDone w none =>
    match s.workers[w]? with
    | some (.dial j v) =>
      some { s with workers := s.workers.set w (.hello j { v with stage := "TLS" }) }
    | _ => none
  | .dialDone w (some err) =>
    match s.workers[w]? with
    | some (.dial j v) =>
      match tcpFailure err with
      | .error _ => some { s with crashed := true }
      | .ok d =>
        some { s with
          pending := s.pending ++ [d.release v s.now]
          workers := s.workers.set w (.recvAddr j v) }
    | _ => none
  | .helloDone w handshakeErr okReads readErr =>
    match s.workers[w]? with
    | some (.hello j v) =>
      match (hello true handshakeErr okReads readErr).bind (tlsStage cfg.residual) with
      | .error _ => some { s with crashed := true }
      | .ok d =>
        some { s with
          pending := s.pending ++ [d.release v s.now]
          workers := s.workers.set w
            (if d.success then .report j { v with code := d.code }
             else .recvAddr j { v with code := d.code }) }
    | _ => none
  | .send w =>
    match s.workers[w]? with
    | some (.report j v) =>
      some { s with
        results := s.results ++ [record j v s.now]
        workers := s.workers.set w .recvJob }
    | _ => none
  | .wake i =>
    match s.pending[i]? with
    | some r =>
      if r.wake ≤ s.now then
        if r.reuse then
          if s.addrs.length < cfg.maxNumAddrs then
            some { s with addrs := s.addrs ++ [r.a], pending := s.pending.eraseIdx i }
          else none
        else some { s with pending := s.pending.eraseIdx i }
      else none
    | none => none

/-- A run: the events applied in order; `none` if one of them is not enabled. -/
def run (cfg : Config) (s : State) : List Event → Option State
  | [] => some s
  | e :: es => (step cfg s e).bind fun s' => run cfg s' es

/-- The state in which `main` starts `n` workers on the lines `jobs` with the
address list `pool` still to be pushed. -/
def init (jobs pool : List String) (n : Nat) : State :=
  { now := 0, jobs := jobs, feed := pool, addrs := [], workers := List.replicate n .recvJob,
    pending := [], results := [], crashed := false }

/-! ## Counting addresses -/

/-- The address an in-flight attempt holds: borrowed from `addrs` and not yet handed
to a release goroutine. -/
def heldAddr : WState → Option String
  | .dial _ v => some v.addr
  | .hello _ v => some v.addr
  | _ => none

/-- Whether the worker holds an address satisfying `p`. -/
def holdsP (p : String → Bool) (ws : WState) : Bool :=
  match heldAddr ws with
  | some a => p a
  | none => false

/-- Whether the release goroutine will push an address satisfying `p`. -/
def pushesP (p : String → Bool) (r : Release) : Bool := r.reuse && p r.a

/-- The number of addresses satisfying `p` that are still in circulation: waiting in
the pool-filling goroutine, in the channel, held by an attempt, or about to be
pushed back by a release goroutine. -/
def occP (p : String → Bool) (s : State) : Nat :=
  s.feed.countP p + s.addrs.countP p + s.workers.countP (holdsP p) + s.pending.countP (pushesP p)

/-- What a transition does to the worker that takes it: `Local s w e old new` says
that event `e`, taken in state `s`, moves worker `w` from program point `old` to
`new`. -/
inductive Local (cfg : Config) (s : State) (w : Nat) : Event → WState → WState → Prop where
  | closed : Local cfg s w (.recvJob w) .recvJob .returned
  | job (j : String) : j.length ≠ 0 → Local cfg s w (.recvJob w) .recvJob (.recvAddr j Vars.zero)
  | borrow (j : String) (v : Vars) (a : String) (rest : List String) : s.addrs = a :: rest →
      Local cfg s w (.recvAddr w) (.recvAddr j v)
        (.dial j { v with addr := a, startTime := s.now, stage := "TCP" })
  | connected (j : String) (v : Vars) :
      Local cfg s w (.dialDone w none) (.dial j v) (.hello j { v with stage := "TLS" })
  | tcpFailed (j : String) (v : Vars) (err : GoError) (d : Decision) : tcpFailure err = .ok d →
      Local cfg s w (.dialDone w (some err)) (.dial j v) (.recvAddr j v)
  | tlsDone (j : String) (v : Vars) (hs : Option GoError) (k : Nat) (re : GoError) (d : Decision) :
      (hello true hs k re).bind (tlsStage cfg.residual) = .ok d →
      Local cfg s w (.helloDone w hs k re) (.hello j v)
        (if d.success then .report j { v with code := d.code }
         else .recvAddr j { v with code := d.code })
  | sent (j : String) (v : Vars) : Local cfg s w (.send w) (.report j v) .recvJob

/-- The start time a worker will report if it is in an attempt or about to report. -/
def startOf : Option WState → Option Nat
  | some (.dial _ v) => some v.startTime
  | some (.hello _ v) => some v.startTime
  | some (.report _ v) => some v.startTime
  | _ => none

/-- The stage variable agrees with the program point. -/
def stageOK : WState → Prop
  | .dial _ v => v.stage = "TCP"
  | .hello _ v => v.stage = "TLS"
  | .report _ v => v.stage = "TLS"
  | _ => True

/-! ## Jobs and records -/

/-- The job a worker is working on, between receiving it and sending its record. -/
def jobOf : WState → Option String
  | .recvAddr j _ => some j
  | .dial j _ => some j
  | .hello j _ => some j
  | .report j _ => some j
  | _ => none

/-- Whether the worker is working on job `j`. -/
def busyWith (j : String) (ws : WState) : Bool := jobOf ws == some j

/-- Whether the domain field of a record is `j`. -/
def domainIs (j : String) (r : List String) : Bool := r[1]? == some j

/-- The address of the attempt a worker is in, or has left for the report. -/
def addrOf : Option WState → Option String
  | some (.dial _ v) => some v.addr
  | some (.hello _ v) => some v.addr
  | some (.report _ v) => some v.addr
  | _ => none

/-- The codes with which the attempt loop is left. -/
def terminalCode (code : String) : Prop :=
  code = "Timeout" ∨ code = "RST" ∨ code = "Success" ∨ code = "EOF"

/-- What holds of the variables of a worker at each program point: the job is not the
empty string, inside `hello` the stage is TLS, and at the report the stage is TLS and the
code is one with which the loop is left. -/
def jobOK : WState → Prop
  | .recvAddr j _ => j.length ≠ 0
  | .dial j _ => j.length ≠ 0
  | .hello j v => j.length ≠ 0 ∧ v.stage = "TLS"
  | .report j v => j.length ≠ 0 ∧ v.stage = "TLS" ∧ terminalCode v.code
  | _ => True

/-- A record of six fields with stage TLS, a non-empty domain and a code with which the
loop is left. -/
def goodRecord (r : List String) : Prop :=
  ∃ start j code addr dur, r = [start, j, "TLS", code, addr, dur] ∧ j ≠ "" ∧ terminalCode code

/-- The number of records sent for domain `j`, of workers working on `j` and of
occurrences of `j` still in the job queue. -/
def jobCount (j : String) (s : State) : Nat :=
  s.results.countP (domainIs j) + s.workers.countP (busyWith j) + s.jobs.count j

/-! ## Evictions along a run -/

/-- The address that event `e`, taken in state `s`, evicts: the attempt of a worker ends
with `reuseAddr = false`, so that its release goroutine will not push the address. -/
def evictedBy (cfg : Config) (s : State) : Event → Option String
  | .dialDone w (some err) =>
    match s.workers[w]?, tcpFailure err with
    | some (.dial _ v), .ok d => if d.reuseAddr then none else some v.addr
    | _, _ => none
  | .helloDone w hs k re =>
    match s.workers[w]?, (hello true hs k re).bind (tlsStage cfg.residual) with
    | some (.hello _ v), .ok d => if d.reuseAddr then none else some v.addr
    | _, _ => none
  | _ => none

/-- The addresses evicted along a run, in order. -/
def evictions (cfg : Config) : State → List Event → List String
  | _, [] => []
  | s, e :: es =>
    match step cfg s e with
    | none => []
    | some s' => (evictedBy cfg s e).toList ++ evictions cfg s' es

/-! ## The pool that `main` builds -/

/-- The function `net.JoinHostPort`: a host containing a colon is put in brackets. -/
def joinHostPort (host port : String) : String :=
  if ':' ∈ host.toList then "[" ++ host ++ "]:" ++ port
  else host ++ ":" ++ port

/-- The function `strconv.Itoa`. -/
def itoa (n : Int) : String := formatInt n

/-- The addresses that the pool-filling goroutine of `main` pushes to `addrs`, in the order
of the pushes (lines 231-237): `ips` are the strings `ip.String()` of the destination
addresses, `ports` the destination ports. -/
def poolAddrs (ips : List String) : List Int → List String
  | [] => []
  | port :: ports => (ips.map fun ip => joinHostPort ip (itoa port)) ++ poolAddrs ips ports

/-- The configuration `main` sets up: `maxNumAddrs := len(ports) * len(ips)` (line 213). -/
def mainCfg (residual : Int) (ips : List String) (ports : List Int) : Config :=
  ⟨residual, ports.length * ips.length⟩

/-- The state in which `main` has started its goroutines (lines 213-252). -/
def mainInit (lines : List String) (ips : List String) (ports : List Int)
    (maxNumWorkers : Nat) : State :=
  init lines (poolAddrs ips ports) maxNumWorkers

/-! ## Sample inputs -/

/-- A run configuration: the default `-residual` of 180 s and room for two addresses. -/
def sampleCfg : Config := ⟨180 * second, 2⟩

/-- The error of a dial that timed out. -/
def errDialTimeout : GoError := .opError "dial" true "dial tcp 192.0.2.1:443: i/o timeout"

/-- The error of a dial that was refused. -/
def errDialRefused : GoError :=
  .opError "dial" false "dial tcp 192.0.2.1:443: connect: connection refused"

/-- The error of a dial that ran out of file descriptors. -/
def errDialFiles : GoError :=
  .opError "dial" false "dial tcp 192.0.2.1:443: socket: too many open files"

/-- The error of a read that met a reset. -/
def errReadReset : GoError :=
  .opError "read" false "read tcp 198.51.100.7:40000->192.0.2.1:443: read: connection reset by peer"

/-- The error of a read that met an unroutable host. -/
def errReadNoRoute : GoError :=
  .opError "read" false "read tcp 198.51.100.7:40000->192.0.2.1:443: read: no route to host"

/-- The error of a write on a closed connection. -/
def errWritePipe : GoError :=
  .opError "write" false "write tcp 198.51.100.7:40000->192.0.2.1:443: write: broken pipe"

/-- The value `io.EOF`. -/
def errEOF : GoError := .other "EOF"

/-- The error of a handshake with a peer that does not speak TLS. -/
def errRecordHeader : GoError :=
  .recordHeaderError "tls: first record does not look like a TLS handshake"

/-- One worker on the domains `example.com` and `example.org`, both addresses pushed. -/
def sampleStart : State :=
  { now := 0, jobs := ["example.com", "example.org"], feed := [], addrs := ["192.0.2.1:443", "192.0.2.2:443"],
    workers := [.recvJob], pending := [], results := [], crashed := false }

/-- The worker has borrowed `192.0.2.1:443` for `example.com` at time 1 s and is dialing. -/
def sampleDial : State :=
  { sampleStart with
    now := 1000000000, jobs := ["example.org"], addrs := ["192.0.2.2:443"],
    workers := [.dial "example.com" ⟨"TCP", "", "192.0.2.1:443", 1000000000⟩] }

/-- The dial has succeeded and the worker is inside `hello`, 5 ms later. -/
def sampleHello : State :=
  { sampleDial with
    now := 1005000000,
    workers := [.hello "example.com" ⟨"TLS", "", "192.0.2.1:443", 1000000000⟩] }

/-- The state of the sample run, with the single address `192.0.2.1:443`, after the dial
for `example.com` was refused: nothing is left in circulation, `example.org` is still
in the job queue. -/
def sampleExhausted : State :=
  { now := 0, jobs := ["example.org"], feed := [], addrs := [],
    workers := [.recvAddr "example.com" ⟨"TCP", "", "192.0.2.1:443", 0⟩],
    pending := [⟨"192.0.2.1:443", false, 0⟩], results := [], crashed := false }

/-- The sample run after the dial to `192.0.2.1:443` was refused: the worker is back at the
borrow and the release goroutine for the address will not push. -/
def sampleEvicted : State :=
  { sampleDial with
    pending := [⟨"192.0.2.1:443", false, 1000000000⟩]
    workers := [.recvAddr "example.com" ⟨"TCP", "", "192.0.2.1:443", 1000000000⟩] }

/-- The sample run after `hello` met a reset and the worker has sent its record. -/
def sampleSent : State :=
  { sampleHello with
    pending := [⟨"192.0.2.1:443", true, 181005000000⟩]
    workers := [.recvJob]
    results := [["1000", "example.com", "TLS", "RST", "192.0.2.1:443", "5"]] }

/-! ## Lemmas on the transition function -/

theorem countP_set_add (p : WState → Bool) (l : List WState) (w : Nat) (old new : WState)
    (h : l[w]? = some old) :
    (l.set w new).countP p + (if p old then 1 else 0) = l.countP p + (if p new then 1 else 0) := by
  induction l generalizing w with
  | nil => simp at h
  | cons x xs ih =>
    cases w with
    | zero =>
      simp only [List.getElem?_cons_zero, Option.some.injEq] at h
      subst h
      simp only [List.set_cons_zero, List.countP_cons]
      omega
    | succ n =>
      simp only [List.getElem?_cons_succ] at h
      have := ih n h
      simp only [List.set_cons_succ, List.countP_cons]
      omega

theorem countP_eraseIdx_add (p : Release → Bool) (l : List Release) (i : Nat) (r : Release)
    (h : l[i]? = some r) :
    (l.eraseIdx i).countP p + (if p r then 1 else 0) = l.countP p := by
  induction l generalizing i with
  | nil => simp at h
  | cons x xs ih =>
    cases i with
    | zero =>
      simp only [List.getElem?_cons_zero, Option.some.injEq] at h
      subst h
      simp only [List.eraseIdx_cons_zero, List.countP_cons]
    | succ n =>
      simp only [List.getElem?_cons_succ] at h
      have := ih n h
      simp only [List.eraseIdx_cons_succ, List.countP_cons]
      omega

theorem step_occP_le (cfg : Config) (p : String → Bool) (s s' : State) (e : Event)
    (h : step cfg s e = some s') : occP p s' ≤ occP p s := by
  unfold step at h
  split at h
  · simp at h
  · split at h
    · -- tick
      simp at h; subst h; simp [occP]
    · -- feedAddr
      split at h
      · simp at h
      · rename_i a rest hfeed
        split at h
        · simp at h; subst h
          simp [occP, hfeed, List.countP_cons, List.countP_append]
          omega
        · simp at h
    · -- recvJob
      split at h
      · rename_i w hw
        have := countP_set_add (holdsP p) s.workers _ _ WState.returned hw
        have h2 := fun j => countP_set_add (holdsP p) s.workers _ _ (WState.recvAddr j Vars.zero) hw
        split at h
        · simp at h; subst h
          simp [occP, holdsP, heldAddr] at this ⊢
          omega
        · rename_i j rest hjobs
          have h2 := h2 j
          split at h
          · simp at h; subst h; simp [occP]
          · simp at h; subst h
            simp [occP, holdsP, heldAddr] at h2 ⊢
            omega
      · simp at h
    · -- recvAddr
      split at h
      · rename_i w j v hw
        split at h
        · simp at h
        · rename_i a rest haddrs
          simp at h; subst h
          have := countP_set_add (holdsP p) s.workers _ _
            (WState.dial j { v with addr := a, startTime := s.now, stage := "TCP" }) hw
          simp [occP, holdsP, heldAddr, haddrs, List.countP_cons] at this ⊢
          omega
      · simp at h
    · -- dialDone none
      split at h
      · rename_i w j v hw
        simp at h; subst h
        have := countP_set_add (holdsP p) s.workers _ _
            (WState.hello j { v with stage := "TLS" }) hw
        simp [occP, holdsP, heldAddr] at this ⊢
        omega
      · simp at h
    · -- dialDone some
      split at h
      · rename_i w j v hw
        split at h
        · simp at h; subst h; simp [occP]
        · rename_i d hd
          simp at h; subst h
          have := countP_set_add (holdsP p) s.workers _ _ (WState.recvAddr j v) hw
          by_cases hp : p v.addr <;> by_cases hr : d.reuseAddr <;>
            simp [occP, holdsP, heldAddr, List.countP_append, List.countP_cons, pushesP,
              Decision.release, hp, hr] at this ⊢ <;> omega
      · simp at h
    · -- helloDone
      split at h
      · rename_i w j v hw
        split at h
        · simp at h; subst h; simp [occP]
        · rename_i d hd
          simp at h; subst h
          by_cases hs : d.success
          · have := countP_set_add (holdsP p) s.workers _ _
              (WState.report j { v with code := d.code }) hw
            by_cases hp : p v.addr <;> by_cases hr : d.reuseAddr <;>
              simp [occP, holdsP, heldAddr, List.countP_append, List.countP_cons, pushesP,
                Decision.release, hs, hp, hr] at this ⊢ <;> omega
          · have := countP_set_add (holdsP p) s.workers _ _
              (WState.recvAddr j { v with code := d.code }) hw
            by_cases hp : p v.addr <;> by_cases hr : d.reuseAddr <;>
              simp [occP, holdsP, heldAddr, List.countP_append, List.countP_cons, pushesP,
                Decision.release, hs, hp, hr] at this ⊢ <;> omega
      · simp at h
    · -- send
      split at h
      · rename_i w j v hw
        simp at h; subst h
        have := countP_set_add (holdsP p) s.workers _ _ WState.recvJob hw
        simp [occP, holdsP, heldAddr] at this ⊢
        omega
      · simp at h
    · -- wake
      split at h
      · rename_i i r hr
        have := countP_eraseIdx_add (pushesP p) s.pending _ _ hr
        split at h
        · split at h
          · rename_i hreuse
            split at h
            · simp at h; subst h
              simp [occP, List.countP_append, List.countP_cons, pushesP, hreuse] at this ⊢
              split_ifs at this ⊢ <;> omega
            · simp at h
          · rename_i hreuse
            simp at h; subst h
            simp [occP, pushesP, hreuse] at this ⊢
            omega
        · simp at h
      · simp at h

theorem run_occP_le (cfg : Config) (p : String → Bool) (evs : List Event) :
    ∀ s s' : State, run cfg s evs = some s' → occP p s' ≤ occP p s := by
  induction evs with
  | nil => intro s s' h; simp [run] at h; subst h; exact le_refl _
  | cons e es ih =>
    intro s s' h
    simp only [run] at h
    cases hs : step cfg s e with
    | none => simp [hs] at h
    | some s1 =>
      simp only [hs, Option.bind_some] at h
      exact le_trans (ih s1 s' h) (step_occP_le cfg p s s1 e hs)

/-- Each transition changes the program point of at most the worker that takes it,
and changes it as `Local` says. -/
theorem step_worker (cfg : Config) (s s' : State) (e : Event) (w : Nat)
    (h : step cfg s e = some s') :
    s'.workers[w]? = s.workers[w]? ∨
      ∃ old new, s.workers[w]? = some old ∧ s'.workers[w]? = some new ∧
        Local cfg s w e old new := by
  have key : ∀ (w' : Nat) (old new : WState), s.workers[w']? = some old →
      Local cfg s w' e old new →
      (s.workers.set w' new)[w]? = s.workers[w]? ∨
        ∃ o n, s.workers[w]? = some o ∧ (s.workers.set w' new)[w]? = some n ∧
          Local cfg s w e o n := by
    intro w' old new hold hloc
    by_cases hww : w' = w
    · subst hww
      right
      refine ⟨old, new, hold, ?_, hloc⟩
      exact List.getElem?_set_self (List.getElem?_eq_some.mp hold).1
    · left
      exact List.getElem?_set_ne hww
  unfold step at h
  split at h
  · simp at h
  · split at h
    · simp at h; subst h; left; rfl
    · split at h
      · simp at h
      · split at h
        · simp at h; subst h; left; rfl
        · simp at h
    · split at h
      · rename_i w' _ hw
        split at h
        · simp at h; subst h
          exact key w' _ _ hw Local.closed
        · rename_i j rest hjobs
          split at h
          · simp at h; subst h; left; rfl
          · rename_i hj
            simp at h; subst h
            exact key w' _ _ hw (Local.job j (by simpa using hj))
      · simp at h
    · split at h
      · rename_i w' _ j v hw
        split at h
        · simp at h
        · rename_i a rest haddrs
          simp at h; subst h
          exact key w' _ _ hw (Local.borrow j v a rest haddrs)
      · simp at h
    · split at h
      · rename_i w' _ j v hw
        simp at h; subst h
        exact key w' _ _ hw (Local.connected j v)
      · simp at h
    · split at h
      · rename_i w' err _ j v hw
        split at h
        · simp at h; subst h; left; rfl
        · rename_i d hd
          simp at h; subst h
          exact key w' _ _ hw (Local.tcpFailed j v _ d hd)
      · simp at h
    · split at h
      · rename_i w' hs k re _ j v hw
        split at h
        · simp at h; subst h; left; rfl
        · rename_i d hd
          simp at h; subst h
          exact key w' _ _ hw (Local.tlsDone j v _ _ _ d hd)
      · simp at h
    · split at h
      · rename_i w' _ j v hw
        simp at h; subst h
        exact key w' _ _ hw (Local.sent j v)
      · simp at h
    · split at h
      · split at h
        · split at h
          · split at h
            · simp at h; subst h; left; rfl
            · simp at h
          · simp at h; subst h; left; rfl
        · simp at h
      · simp at h

theorem tcpFailure_ok (err : GoError) (d : Decision) (h : tcpFailure err = .ok d) :
    checkError (some err) = .ok d.code ∧ d.success = false ∧
      (d.reuseAddr = true ↔ d.code ≠ "Refused" ∧ d.code ≠ "UNREACHABLE") ∧
      d.delay = if d.code = "Timeout" then 30 * second else 0 := by
  unfold tcpFailure at h
  cases hc : checkError (some err) with
  | error m => simp [hc, Except.map] at h
  | ok c =>
    simp only [hc, Except.map, Except.ok.injEq] at h
    subst h
    split_ifs <;> simp_all

theorem tlsStage_ok (residual : Int) (herr : Option GoError) (d : Decision)
    (h : tlsStage residual herr = .ok d) :
    (d.success = true ↔
        d.code = "Timeout" ∨ d.code = "RST" ∨ d.code = "Success" ∨ d.code = "EOF") ∧
      (d.reuseAddr = true ↔ d.code ≠ "TLSRecordHeaderError" ∧ d.code ≠ "X509HostnameError") ∧
      d.delay = if d.code = "RST" then residual else 0 := by
  unfold tlsStage at h
  generalize (match herr with
    | some e => checkError (some e)
    | none => Except.ok "Success") = r at h
  cases r with
  | error m => simp [Except.map] at h
  | ok c =>
    simp only [Except.map, Except.ok.injEq] at h
    subst h
    by_cases h1 : c = "Timeout"
    · subst h1; simp
    by_cases h2 : c = "RST"
    · subst h2; simp
    by_cases h3 : c = "Success"
    · subst h3; simp
    by_cases h4 : c = "TLSRecordHeaderError"
    · subst h4; simp
    by_cases h5 : c = "X509HostnameError"
    · subst h5; simp
    by_cases h6 : c = "EOF"
    · subst h6; simp
    simp [h1, h2, h3, h4, h5, h6]

theorem readLoop_eq (k : Nat) (re : GoError) :
    readLoop k re = (checkError (some re)).map fun _ => re := by
  induction k with
  | zero => rfl
  | succ n ih => simpa [readLoop] using ih

theorem hello_eq (hs : Option GoError) (k : Nat) (re : GoError) :
    hello true hs k re = (checkError (some re)).map fun _ => some re := by
  simp only [hello, readLoop_eq, if_true]
  cases checkError (some re) <;> rfl

theorem step_dialDone_some (cfg : Config) (s : State) (w : Nat) (j : String) (v : Vars)
    (err : GoError) (d : Decision) (hc : s.crashed = false)
    (hw : s.workers[w]? = some (.dial j v)) (hd : tcpFailure err = .ok d) :
    step cfg s (.dialDone w (some err)) =
      some { s with
        pending := s.pending ++ [d.release v s.now]
        workers := s.workers.set w (.recvAddr j v) } := by
  simp [step, hc, hw, hd]

theorem step_helloDone (cfg : Config) (s : State) (w : Nat) (j : String) (v : Vars)
    (hs : Option GoError) (k : Nat) (re : GoError) (d : Decision) (hc : s.crashed = false)
    (hw : s.workers[w]? = some (.hello j v))
    (hd : (hello true hs k re).bind (tlsStage cfg.residual) = .ok d) :
    step cfg s (.helloDone w hs k re) =
      some { s with
        pending := s.pending ++ [d.release v s.now]
        workers := s.workers.set w
          (if d.success then .report j { v with code := d.code }
           else .recvAddr j { v with code := d.code }) } := by
  simp [step, hc, hw, hd]

theorem step_send (cfg : Config) (t : State) (w : Nat) (j : String) (v : Vars)
    (hc : t.crashed = false) (hw : t.workers[w]? = some (.report j v)) :
    step cfg t (.send w) =
      some { t with
        results := t.results ++ [record j v t.now]
        workers := t.workers.set w .recvJob } := by
  simp [step, hc, hw]

theorem step_wake_reuse (cfg : Config) (t : State) (i : Nat) (r : Release)
    (hc : t.crashed = false) (hr : t.pending[i]? = some r) (hreuse : r.reuse = true) :
    step cfg t (.wake i) =
      if r.wake ≤ t.now ∧ t.addrs.length < cfg.maxNumAddrs then
        some { t with addrs := t.addrs ++ [r.a], pending := t.pending.eraseIdx i }
      else none := by
  simp only [step, hc, hr, hreuse]
  split_ifs <;> simp_all

theorem step_wake_drop (cfg : Config) (t : State) (i : Nat) (r : Release)
    (hc : t.crashed = false) (hr : t.pending[i]? = some r) (hreuse : r.reuse = false) :
    step cfg t (.wake i) =
      if r.wake ≤ t.now then some { t with pending := t.pending.eraseIdx i } else none := by
  simp only [step, hc, hr, hreuse]
  split_ifs <;> simp_all

theorem step_recvAddr (cfg : Config) (t : State) (w : Nat) (j : String) (v : Vars)
    (a : String) (rest : List String)
    (hc : t.crashed = false) (hw : t.workers[w]? = some (.recvAddr j v))
    (ha : t.addrs = a :: rest) :
    step cfg t (.recvAddr w) =
      some { t with
        addrs := rest
        workers := t.workers.set w
          (.dial j { v with addr := a, startTime := t.now, stage := "TCP" }) } := by
  simp [step, hc, hw, ha]

theorem local_stageOK (cfg : Config) (s : State) (w : Nat) (e : Event) (old new : WState)
    (h : Local cfg s w e old new) (ho : stageOK old) : stageOK new := by
  cases h with
  | closed => trivial
  | job j hj => trivial
  | borrow j v a rest ha => rfl
  | connected j v => rfl
  | tcpFailed j v err d hd => trivial
  | tlsDone j v hs k re d hd =>
    by_cases hsucc : d.success
    · simp only [hsucc, if_true]; exact ho
    · simp only [hsucc]; trivial
  | sent j v => trivial

theorem run_stageOK (cfg : Config) (evs : List Event) :
    ∀ s s' : State, (∀ (w : Nat) ws, s.workers[w]? = some ws → stageOK ws) →
      run cfg s evs = some s' → ∀ (w : Nat) ws, s'.workers[w]? = some ws → stageOK ws := by
  induction evs with
  | nil => intro s s' hinv h; simp [run] at h; subst h; exact hinv
  | cons e es ih =>
    intro s s' hinv h
    simp only [run] at h
    cases hs : step cfg s e with
    | none => simp [hs] at h
    | some s1 =>
      simp only [hs, Option.bind_some] at h
      refine ih s1 s' ?_ h
      intro w ws hws
      rcases step_worker cfg s s1 e w hs with hsame | ⟨old, new, hold, hnew, hloc⟩
      · exact hinv w ws (hsame ▸ hws)
      · have hnw : new = ws := by
          rw [hnew] at hws
          exact Option.some.inj hws
        rw [← hnw]
        exact local_stageOK cfg s w e old new hloc (hinv w old hold)

theorem init_stageOK (jobs pool : List String) (n : Nat) :
    ∀ (w : Nat) ws, (init jobs pool n).workers[w]? = some ws → stageOK ws := by
  intro w ws h
  have hmem : ws ∈ (init jobs pool n).workers := List.getElem?_mem h
  simp only [init, List.mem_replicate] at hmem
  rw [hmem.2]
  trivial

theorem step_recvAddr_inv (cfg : Config) (s s' : State) (w : Nat)
    (h : step cfg s (.recvAddr w) = some s') :
    ∃ j v a rest, s.workers[w]? = some (.recvAddr j v) ∧ s.addrs = a :: rest ∧
      s' = { s with
        addrs := rest
        workers := s.workers.set w
          (.dial j { v with addr := a, startTime := s.now, stage := "TCP" }) } := by
  simp only [step] at h
  split at h
  · simp at h
  · split at h
    · rename_i j v hw
      split at h
      · simp at h
      · rename_i a rest ha
        exact ⟨j, v, a, rest, hw, ha, (Option.some.inj h).symm⟩
    · simp at h

theorem step_send_inv (cfg : Config) (s s' : State) (w : Nat)
    (h : step cfg s (.send w) = some s') :
    ∃ j v, s.workers[w]? = some (.report j v) ∧
      s' = { s with
        results := s.results ++ [record j v s.now]
        workers := s.workers.set w .recvJob } := by
  simp only [step] at h
  split at h
  · simp at h
  · split at h
    · rename_i j v hw
      exact ⟨j, v, hw, (Option.some.inj h).symm⟩
    · simp at h

theorem step_recvJob_inv (cfg : Config) (s s' : State) (w : Nat)
    (h : step cfg s (.recvJob w) = some s') : s.workers[w]? = some .recvJob := by
  simp only [step] at h
  split at h
  · simp at h
  · split at h
    · rename_i hw
      exact hw
    · simp at h

theorem local_startOf (cfg : Config) (s : State) (w : Nat) (e : Event) (old new : WState)
    (h : Local cfg s w e old new) (he : e ≠ .recvAddr w) :
    startOf (some new) = startOf (some old) ∨ startOf (some new) = none := by
  cases h with
  | closed => right; rfl
  | job j hj => right; rfl
  | borrow j v a rest ha => exact absurd rfl he
  | connected j v => left; rfl
  | tcpFailed j v err d hd => right; rfl
  | tlsDone j v hs k re d hd =>
    by_cases hsucc : d.success
    · left; simp only [hsucc, if_true]; rfl
    · right; simp only [hsucc]; rfl
  | sent j v => right; rfl

/-- Between two borrows of worker `w` the start time it will report does not change. -/
theorem run_startOf (cfg : Config) (w : Nat) (t : Nat) (evs : List Event) :
    ∀ s s' : State,
      (startOf s.workers[w]? = some t ∨ startOf s.workers[w]? = none) →
      (∀ e ∈ evs, e ≠ .recvAddr w) → run cfg s evs = some s' →
      (startOf s'.workers[w]? = some t ∨ startOf s'.workers[w]? = none) := by
  induction evs with
  | nil => intro s s' hq _ h; simp [run] at h; subst h; exact hq
  | cons e es ih =>
    intro s s' hq hne h
    simp only [run] at h
    cases hs : step cfg s e with
    | none => simp [hs] at h
    | some s1 =>
      simp only [hs, Option.bind_some] at h
      refine ih s1 s' ?_ (fun e' he' => hne e' (List.mem_cons_of_mem _ he')) h
      rcases step_worker cfg s s1 e w hs with hsame | ⟨old, new, hold, hnew, hloc⟩
      · rw [hsame]; exact hq
      · rw [hnew]
        rcases local_startOf cfg s w e old new hloc (hne e (List.mem_cons_self _ _)) with h1 | h1
        · rw [h1, ← hold]; exact hq
        · right; exact h1

theorem occP_zero (p : String → Bool) (s : State) (h : occP p s = 0) :
    (∀ x ∈ s.feed, ¬ p x = true) ∧ (∀ x ∈ s.addrs, ¬ p x = true) ∧
      (∀ ws ∈ s.workers, ¬ holdsP p ws = true) ∧ (∀ r ∈ s.pending, ¬ pushesP p r = true) := by
  simp only [occP] at h
  refine ⟨List.countP_eq_zero.mp (by omega), List.countP_eq_zero.mp (by omega),
    List.countP_eq_zero.mp (by omega), List.countP_eq_zero.mp (by omega)⟩

/-- Once no address is in circulation, a worker waiting at the borrow stays there: the
channel stays empty and no event of that worker is enabled. -/
theorem dead_pool_run (cfg : Config) (w : Nat) (j : String) (v : Vars) (evs : List Event) :
    ∀ s s' : State, s.workers[w]? = some (.recvAddr j v) → occP (fun _ => true) s = 0 →
      run cfg s evs = some s' →
      s'.workers[w]? = some (.recvAddr j v) ∧ occP (fun _ => true) s' = 0 ∧
        ∀ e ∈ evs, e ≠ .send w ∧ e ≠ .recvJob w ∧ e ≠ .recvAddr w := by
  induction evs with
  | nil =>
    intro s s' hw hz h
    simp [run] at h; subst h
    exact ⟨hw, hz, by simp⟩
  | cons e es ih =>
    intro s s' hw hz h
    simp only [run] at h
    cases hs : step cfg s e with
    | none => simp [hs] at h
    | some s1 =>
      simp only [hs, Option.bind_some] at h
      have haddrs : s.addrs = [] := by
        have := (occP_zero _ s hz).2.1
        cases hl : s.addrs with
        | nil => rfl
        | cons a rest => exact absurd rfl (this a (by simp [hl]))
      have hz1 : occP (fun _ => true) s1 = 0 :=
        Nat.le_zero.mp (hz ▸ step_occP_le cfg _ s s1 e hs)
      have hw1 : s1.workers[w]? = some (.recvAddr j v) := by
        rcases step_worker cfg s s1 e w hs with hsame | ⟨old, new, hold, hnew, hloc⟩
        · rw [hsame]; exact hw
        · rw [hw] at hold
          have hold' : old = .recvAddr j v := (Option.some.inj hold).symm
          subst hold'
          cases hloc with
          | borrow _ _ a rest ha => rw [haddrs] at ha; cases ha
      obtain ⟨r1, r2, r3⟩ := ih s1 s' hw1 hz1 h
      refine ⟨r1, r2, ?_⟩
      intro e' he'
      rcases List.mem_cons.mp he' with heq | hmem
      · subst heq
        refine ⟨?_, ?_, ?_⟩
        · intro he
          subst he
          obtain ⟨j', v', hrep, _⟩ := step_send_inv cfg s s1 w hs
          rw [hw] at hrep; cases hrep
        · intro he
          subst he
          have := step_recvJob_inv cfg s s1 w hs
          rw [hw] at this; cases this
        · intro he
          subst he
          obtain ⟨j', v', a, rest, _, ha, _⟩ := step_recvAddr_inv cfg s s1 w hs
          rw [haddrs] at ha; cases ha
      · exact r3 e' hmem

/-! ## The claims -/

/-- C1, as the claim states it, fails on a run with two attempts: the first attempt for
`example.com` starts at 1000 ms and times out in the dial, the second starts at 4000 ms
and ends in EOF, the record is sent at 4012 ms. The record carries start 4000 and
duration 12, while the time from the first attempt is 3012 ms. -/
theorem record_times_counterexample :
    run sampleCfg (init ["example.com", "example.org"] ["192.0.2.1:443", "192.0.2.2:443"] 1)
        [.feedAddr, .feedAddr, .recvJob 0, .tick 1000000000, .recvAddr 0] = some sampleDial ∧
      (run sampleCfg sampleDial
        [.tick 3000000000, .dialDone 0 (some errDialTimeout), .recvAddr 0, .tick 5000000,
          .dialDone 0 none, .tick 7000000, .helloDone 0 none 0 errEOF, .send 0]).map
          (fun s => (s.now, s.results)) =
        some (4012000000, [["4000", "example.com", "TLS", "EOF", "192.0.2.2:443", "12"]]) ∧
      formatInt (unixMilli 1000000000) = "1000" ∧
      formatInt (milliseconds (timeSub 4012000000 1000000000)) = "3012" := by
  decide

/-- C1 (amended). Worker `w` borrows an address in state `s1`, the run goes on with
events among which `w` borrows no further address, and `w` then sends its record in
state `s3`. The record added is the only one, its start field is the time of that last
borrow in milliseconds and its duration field is the time from that last borrow to the
send in milliseconds, whatever attempts the worker made for the domain before `s1`. -/
theorem record_times_last_attempt (cfg : Config) (s1 s2 s3 s4 : State) (w : Nat)
    (evs : List Event)
    (hborrow : step cfg s1 (.recvAddr w) = some s2)
    (hrun : run cfg s2 evs = some s3)
    (hlast : ∀ e ∈ evs, e ≠ .recvAddr w)
    (hsend : step cfg s3 (.send w) = some s4) :
    ∃ j stage code addr,
      s4.results = s3.results ++
        [[formatInt (unixMilli s1.now), j, stage, code, addr,
          formatInt (milliseconds (timeSub s3.now s1.now))]] := by
  obtain ⟨j0, v0, a, rest, hw1, _, hs2⟩ := step_recvAddr_inv cfg s1 s2 w hborrow
  have hlt : w < s1.workers.length := (List.getElem?_eq_some.mp hw1).1
  have hstart2 : startOf s2.workers[w]? = some s1.now := by
    rw [hs2]
    simp only [List.getElem?_set_self hlt]
    rfl
  have hq := run_startOf cfg w s1.now evs s2 s3 (Or.inl hstart2) hlast hrun
  obtain ⟨j, v, hw3, hs4⟩ := step_send_inv cfg s3 s4 w hsend
  have hv : v.startTime = s1.now := by
    rw [hw3] at hq
    rcases hq with h | h
    · exact Option.some.inj h
    · simp [startOf] at h
  refine ⟨j, v.stage, v.code, v.addr, ?_⟩
  rw [hs4, ← hv]
  rfl

/-- C1 (amended), on the second attempt of the two-attempt run: the borrow is at 4000 ms,
the send at 4012 ms. -/
theorem record_times_last_attempt_witness :
    ∃ j stage code addr,
      [["4000", "example.com", "TLS", "EOF", "192.0.2.2:443", "12"]] =
        [] ++ [[formatInt (unixMilli 4000000000), j, stage, code, addr,
          formatInt (milliseconds (timeSub 4012000000 4000000000))]] :=
  record_times_last_attempt sampleCfg
    { sampleDial with
      now := 4000000000
      pending := [⟨"192.0.2.1:443", true, 34000000000⟩]
      workers := [.recvAddr "example.com" ⟨"TCP", "", "192.0.2.1:443", 1000000000⟩] }
    { sampleDial with
      now := 4000000000
      addrs := []
      pending := [⟨"192.0.2.1:443", true, 34000000000⟩]
      workers := [.dial "example.com" ⟨"TCP", "", "192.0.2.2:443", 4000000000⟩] }
    { sampleDial with
      now := 4012000000
      addrs := []
      pending := [⟨"192.0.2.1:443", true, 34000000000⟩, ⟨"192.0.2.2:443", true, 4012000000⟩]
      workers := [.report "example.com" ⟨"TLS", "EOF", "192.0.2.2:443", 4000000000⟩] }
    { sampleDial with
      now := 4012000000
      addrs := []
      pending := [⟨"192.0.2.1:443", true, 34000000000⟩, ⟨"192.0.2.2:443", true, 4012000000⟩]
      workers := [.recvJob]
      results := [["4000", "example.com", "TLS", "EOF", "192.0.2.2:443", "12"]] }
    0 [.tick 5000000, .dialDone 0 none, .tick 7000000, .helloDone 0 none 0 errEOF]
    (by decide) (by decide) (by decide) (by decide)

/-- C2. The run starts from a pool of pairwise distinct addresses. In a reachable state
an attempt on address `a` ends with TCP code Refused or UNREACHABLE, or with TLS code
TLSRecordHeaderError or X509HostnameError. Then in every state the run reaches
afterwards `a` is neither waiting to be pushed by the pool-filling goroutine nor in the
channel, no attempt holds it, every release goroutine for it is one that does not push,
and a borrow taken from such a state hands out an address other than `a`. -/
theorem evicted_never_borrowed (cfg : Config) (jobs pool : List String) (n : Nat)
    (evs1 evs2 : List Event) (s s1 s2 : State) (e : Event) (a : String)
    (hpool : pool.Nodup)
    (hrun1 : run cfg (init jobs pool n) evs1 = some s)
    (hev :
      (∃ w j v err d, e = .dialDone w (some err) ∧ s.workers[w]? = some (.dial j v) ∧
        v.addr = a ∧ tcpFailure err = .ok d ∧ (d.code = "Refused" ∨ d.code = "UNREACHABLE")) ∨
      (∃ w j v hs k re d, e = .helloDone w hs k re ∧ s.workers[w]? = some (.hello j v) ∧
        v.addr = a ∧ (hello true hs k re).bind (tlsStage cfg.residual) = .ok d ∧
        (d.code = "TLSRecordHeaderError" ∨ d.code = "X509HostnameError")))
    (hstep : step cfg s e = some s1)
    (hrun2 : run cfg s1 evs2 = some s2) :
    a ∉ s2.feed ∧ a ∉ s2.addrs ∧
      (∀ (w : Nat) (ws : WState), s2.workers[w]? = some ws → heldAddr ws ≠ some a) ∧
      (∀ r ∈ s2.pending, r.a = a → r.reuse = false) ∧
      (∀ (w : Nat) (s3 : State) (j : String) (v : Vars),
        step cfg s2 (.recvAddr w) = some s3 → s3.workers[w]? = some (.dial j v) →
        v.addr ≠ a) := by
  have hc : s.crashed = false := by
    cases hcr : s.crashed with
    | false => rfl
    | true => simp [step, hcr] at hstep
  -- at most one copy of `a` is in circulation
  have h0 : occP (fun x => x == a) (init jobs pool n) ≤ 1 := by
    have := List.nodup_iff_count_le_one.mp hpool a
    rw [List.count_eq_countP] at this
    simpa [occP, init, List.countP_replicate, holdsP, heldAddr] using this
  have hs : occP (fun x => x == a) s ≤ 1 :=
    le_trans (run_occP_le cfg _ evs1 _ s hrun1) h0
  -- the evicting step removes it
  have hs1 : occP (fun x => x == a) s1 + 1 ≤ occP (fun x => x == a) s := by
    rcases hev with ⟨w, j, v, err, d, he, hw, hva, hd, hcode⟩ |
      ⟨w, j, v, hs', k, re, d, he, hw, hva, hd, hcode⟩
    · subst he
      rw [step_dialDone_some cfg s w j v err d hc hw hd] at hstep
      have hreuse : d.reuseAddr = false := by
        cases hrd : d.reuseAddr with
        | false => rfl
        | true =>
          have := (tcpFailure_ok err d hd).2.2.1.mp hrd
          rcases hcode with h | h <;> simp [h] at this
      have hcount := countP_set_add (holdsP fun x => x == a) s.workers w _ (.recvAddr j v) hw
      have hs1eq := (Option.some.inj hstep).symm
      subst hs1eq
      simp [occP, holdsP, heldAddr, pushesP, Decision.release, hreuse, hva,
        List.countP_append, List.countP_cons] at hcount ⊢
      omega
    · subst he
      rw [step_helloDone cfg s w j v hs' k re d hc hw hd] at hstep
      cases hh : hello true hs' k re with
      | error m => simp [hh, Except.bind] at hd
      | ok herr =>
        simp only [hh, Except.bind] at hd
        obtain ⟨g1, g2, _⟩ := tlsStage_ok cfg.residual herr d hd
        have hsucc : d.success = false := by
          cases hsd : d.success with
          | false => rfl
          | true =>
            have := g1.mp hsd
            rcases hcode with h | h <;> simp [h] at this
        have hreuse : d.reuseAddr = false := by
          cases hrd : d.reuseAddr with
          | false => rfl
          | true =>
            have := g2.mp hrd
            rcases hcode with h | h <;> simp [h] at this
        have hcount := countP_set_add (holdsP fun x => x == a) s.workers w _
          (.recvAddr j { v with code := d.code }) hw
        have hs1eq := (Option.some.inj hstep).symm
        subst hs1eq
        simp [occP, holdsP, heldAddr, pushesP, Decision.release, hreuse, hsucc, hva,
          List.countP_append, List.countP_cons] at hcount ⊢
        omega
  have hz1 : occP (fun x => x == a) s1 = 0 := by omega
  have hz2 : occP (fun x => x == a) s2 = 0 :=
    Nat.le_zero.mp (hz1 ▸ run_occP_le cfg _ evs2 s1 s2 hrun2)
  obtain ⟨f1, f2, f3, f4⟩ := occP_zero _ s2 hz2
  refine ⟨fun hm => f1 a hm (by simp), fun hm => f2 a hm (by simp), ?_, ?_, ?_⟩
  · intro w ws hws hheld
    exact f3 ws (List.getElem?_mem hws) (by simp [holdsP, hheld])
  · intro r hr hra
    cases hrr : r.reuse with
    | false => rfl
    | true => exact absurd (by simp [pushesP, hrr, hra]) (f4 r hr)
  · intro w s3 j v hb hw3 hva
    have hz3 : occP (fun x => x == a) s3 = 0 :=
      Nat.le_zero.mp (hz2 ▸ step_occP_le cfg _ s2 s3 _ hb)
    exact (occP_zero _ s3 hz3).2.2.1 _ (List.getElem?_mem hw3) (by simp [holdsP, heldAddr, hva])

/-- C2, on the sample run: the dial to `192.0.2.1:443` is refused; after the worker has
borrowed again, the address is not in the channel. -/
theorem evicted_never_borrowed_witness :
    "192.0.2.1:443" ∉
      ({ sampleDial with
          addrs := []
          pending := [⟨"192.0.2.1:443", false, 1000000000⟩]
          workers := [.dial "example.com" ⟨"TCP", "", "192.0.2.2:443", 1000000000⟩] } :
        State).addrs :=
  (evicted_never_borrowed sampleCfg ["example.com", "example.org"]
    ["192.0.2.1:443", "192.0.2.2:443"] 1
    [.feedAddr, .feedAddr, .recvJob 0, .tick 1000000000, .recvAddr 0] [.recvAddr 0]
    sampleDial
    { sampleDial with
      pending := [⟨"192.0.2.1:443", false, 1000000000⟩]
      workers := [.recvAddr "example.com" ⟨"TCP", "", "192.0.2.1:443", 1000000000⟩] }
    { sampleDial with
      addrs := []
      pending := [⟨"192.0.2.1:443", false, 1000000000⟩]
      workers := [.dial "example.com" ⟨"TCP", "", "192.0.2.2:443", 1000000000⟩] }
    (.dialDone 0 (some errDialRefused)) "192.0.2.1:443" (by decide) (by decide)
    (Or.inl ⟨0, "example.com", ⟨"TCP", "", "192.0.2.1:443", 1000000000⟩, errDialRefused,
      ⟨"Refused", false, false, 0⟩, rfl, by decide, rfl, by decide, by decide⟩)
    (by decide) (by decide)).2.1

/-- C3. Reachable state, worker `w` inside `hello` with its attempt on `v.addr`, and the
call ends with a code among Timeout, RST, Success, EOF. Then the worker leaves the
attempt loop (it is at the report point, not at the borrow), has started exactly one
release goroutine for `v.addr` that does push (no eviction), due after the residual
duration for RST and at once otherwise; the pool and the results are untouched by this
step. From the report point the worker sends exactly one record, with stage TLS, that
code and that address, and then waits for the next job. The release goroutine pushes the
address once, when due and when the channel has room, and is gone afterwards. The
decision function gives the same verdict for all four codes, Success included. -/
theorem tls_terminal_codes (cfg : Config) (jobs pool : List String) (n : Nat)
    (evs : List Event) (s : State) (w : Nat) (j : String) (v : Vars)
    (hs : Option GoError) (k : Nat) (re : GoError) (d : Decision)
    (hreach : run cfg (init jobs pool n) evs = some s)
    (hc : s.crashed = false) (hw : s.workers[w]? = some (.hello j v))
    (hd : (hello true hs k re).bind (tlsStage cfg.residual) = .ok d)
    (hcode : d.code = "Timeout" ∨ d.code = "RST" ∨ d.code = "Success" ∨ d.code = "EOF") :
    step cfg s (.helloDone w hs k re) =
        some { s with
          pending := s.pending ++
            [⟨v.addr, true, s.now + (if d.code = "RST" then cfg.residual.toNat else 0)⟩]
          workers := s.workers.set w (.report j { v with code := d.code }) } ∧
      (∀ t : State, t.crashed = false →
        t.workers[w]? = some (.report j { v with code := d.code }) →
        step cfg t (.send w) =
          some { t with
            results := t.results ++
              [[formatInt (unixMilli v.startTime), j, "TLS", d.code, v.addr,
                formatInt (milliseconds (timeSub t.now v.startTime))]]
            workers := t.workers.set w .recvJob }) ∧
      (∀ (t : State) (i : Nat) (wake : Nat), t.crashed = false →
        t.pending[i]? = some ⟨v.addr, true, wake⟩ →
        step cfg t (.wake i) =
          if wake ≤ t.now ∧ t.addrs.length < cfg.maxNumAddrs then
            some { t with addrs := t.addrs ++ [v.addr], pending := t.pending.eraseIdx i }
          else none) ∧
      (∀ (herr : Option GoError) (d' : Decision), tlsStage cfg.residual herr = .ok d' →
        (d'.code = "Timeout" ∨ d'.code = "RST" ∨ d'.code = "Success" ∨ d'.code = "EOF") →
        d'.success = true ∧ d'.reuseAddr = true ∧
          d'.delay = if d'.code = "RST" then cfg.residual else 0) ∧
      tlsStage cfg.residual none = .ok ⟨"Success", true, true, 0⟩ := by
  have hstage : v.stage = "TLS" :=
    run_stageOK cfg evs _ s (init_stageOK jobs pool n) hreach w _ hw
  cases hh : hello true hs k re with
  | error m => simp [hh, Except.bind] at hd
  | ok herr =>
    simp only [hh, Except.bind] at hd
    obtain ⟨h1, h2, h3⟩ := tlsStage_ok cfg.residual herr d hd
    have hsucc : d.success = true := h1.mpr hcode
    have hreuse : d.reuseAddr = true := by
      apply h2.mpr
      rcases hcode with h | h | h | h <;> simp [h]
    refine ⟨?_, ?_, ?_, ?_, rfl⟩
    · rw [step_helloDone cfg s w j v hs k re d hc hw (by simp [hh, Except.bind, hd])]
      simp only [Decision.release, hsucc, hreuse, h3, if_true]
      by_cases hr : d.code = "RST" <;> simp [hr]
    · intro t htc htw
      rw [step_send cfg t w j _ htc htw]
      simp [record, hstage]
    · intro t i wake htc htp
      exact step_wake_reuse cfg t i _ htc htp rfl
    · intro herr' d' hd' hcode'
      obtain ⟨g1, g2, g3⟩ := tlsStage_ok cfg.residual herr' d' hd'
      refine ⟨g1.mpr hcode', ?_, g3⟩
      apply g2.mpr
      rcases hcode' with h | h | h | h <;> simp [h]

/-- C3, at a reset met in `hello` on the sample run: the worker goes to the report point
and the address is due back 180 s later. -/
theorem tls_terminal_codes_witness :
    step sampleCfg sampleHello (.helloDone 0 none 0 errReadReset) =
      some { sampleHello with
        pending := [⟨"192.0.2.1:443", true, 181005000000⟩]
        workers := [.report "example.com" ⟨"TLS", "RST", "192.0.2.1:443", 1000000000⟩] } :=
  (tls_terminal_codes sampleCfg ["example.com", "example.org"]
    ["192.0.2.1:443", "192.0.2.2:443"] 1
    [.feedAddr, .feedAddr, .recvJob 0, .tick 1000000000, .recvAddr 0, .tick 5000000,
      .dialDone 0 none]
    sampleHello 0 "example.com" ⟨"TLS", "", "192.0.2.1:443", 1000000000⟩ none 0 errReadReset
    ⟨"RST", true, true, 180 * second⟩ (by decide) (by decide) (by decide) (by decide)
    (by decide)).1

/-- C4, as the claim states it, fails on the sample run: the read in `hello` fails with
"no route to host", which `checkError` classifies Unexpected; the worker is then back at
the borrow of the attempt loop, no record has been sent and none can be sent. -/
theorem tls_unexpected_counterexample :
    run sampleCfg (init ["example.com", "example.org"] ["192.0.2.1:443", "192.0.2.2:443"] 1)
        [.feedAddr, .feedAddr, .recvJob 0, .tick 1000000000, .recvAddr 0, .tick 5000000,
          .dialDone 0 none] = some sampleHello ∧
      checkError (some errReadNoRoute) = .ok "Unexpected" ∧
      step sampleCfg sampleHello (.helloDone 0 none 0 errReadNoRoute) =
        some { sampleHello with
          pending := [⟨"192.0.2.1:443", true, 1005000000⟩]
          workers := [.recvAddr "example.com" ⟨"TLS", "Unexpected", "192.0.2.1:443", 1000000000⟩] } ∧
      step sampleCfg
        { sampleHello with
          pending := [⟨"192.0.2.1:443", true, 1005000000⟩]
          workers := [.recvAddr "example.com" ⟨"TLS", "Unexpected", "192.0.2.1:443", 1000000000⟩] }
        (.send 0) = none := by
  decide

/-- C4 (amended). Worker `w` inside `hello` with its attempt on `v.addr`, and the call ends
with code Unexpected. Then the decision is retry: the worker is back at the borrow of the
attempt loop for the same domain, no record is added, and one release goroutine for
`v.addr` has been started that pushes with zero delay. At the borrow no record can be
sent, and the next address in the channel is borrowed for the same domain. -/
theorem tls_unexpected_retries (cfg : Config) (s : State) (w : Nat) (j : String) (v : Vars)
    (hs : Option GoError) (k : Nat) (re : GoError) (d : Decision)
    (hc : s.crashed = false) (hw : s.workers[w]? = some (.hello j v))
    (hd : (hello true hs k re).bind (tlsStage cfg.residual) = .ok d)
    (hcode : d.code = "Unexpected") :
    step cfg s (.helloDone w hs k re) =
        some { s with
          pending := s.pending ++ [⟨v.addr, true, s.now⟩]
          workers := s.workers.set w (.recvAddr j { v with code := "Unexpected" }) } ∧
      (∀ t : State, t.workers[w]? = some (.recvAddr j { v with code := "Unexpected" }) →
        step cfg t (.send w) = none) ∧
      (∀ (t : State) (a : String) (rest : List String), t.crashed = false →
        t.workers[w]? = some (.recvAddr j { v with code := "Unexpected" }) →
        t.addrs = a :: rest →
        step cfg t (.recvAddr w) =
          some { t with
            addrs := rest
            workers := t.workers.set w (.dial j ⟨"TCP", "Unexpected", a, t.now⟩) }) := by
  cases hh : hello true hs k re with
  | error m => simp [hh, Except.bind] at hd
  | ok herr =>
    simp only [hh, Except.bind] at hd
    obtain ⟨h1, h2, h3⟩ := tlsStage_ok cfg.residual herr d hd
    have hsucc : d.success = false := by
      cases hsd : d.success with
      | false => rfl
      | true => have := h1.mp hsd; simp [hcode] at this
    have hreuse : d.reuseAddr = true := by
      apply h2.mpr; simp [hcode]
    refine ⟨?_, ?_, ?_⟩
    · rw [step_helloDone cfg s w j v hs k re d hc hw (by simp [hh, Except.bind, hd])]
      simp [Decision.release, hsucc, hreuse, h3, hcode]
    · intro t htw
      simp [step, htw]
    · intro t a rest htc htw hta
      rw [step_recvAddr cfg t w j _ a rest htc htw hta]

/-- C4 (amended), on the sample run with the "no route to host" read error. -/
theorem tls_unexpected_retries_witness :
    step sampleCfg sampleHello (.helloDone 0 none 0 errReadNoRoute) =
      some { sampleHello with
        pending := [⟨"192.0.2.1:443", true, 1005000000⟩]
        workers := [.recvAddr "example.com" ⟨"TLS", "Unexpected", "192.0.2.1:443", 1000000000⟩] } :=
  (tls_unexpected_retries sampleCfg sampleHello 0 "example.com"
    ⟨"TLS", "", "192.0.2.1:443", 1000000000⟩ none 0 errReadNoRoute
    ⟨"Unexpected", false, true, 0⟩ (by decide) (by decide) (by decide) (by decide)).1

/-- C5. What `connt.Handshake()` returned has no effect on the attempt: the transition
is the same as for a handshake that returned nil, since `hello` returns the error that
ended its read loop. On the sample run a server answers the ClientHello with bytes that
are not TLS and closes: the handshake fails with a `tls.RecordHeaderError`, which
`checkError` classifies TLSRecordHeaderError and for which the TLS stage decides
`reuseAddr = false`; but `hello` returns `io.EOF`, the worker leaves the loop with code
EOF, and its release goroutine pushes the address back at once: no address is evicted. -/
theorem handshake_error_not_evicting :
    (∀ (cfg : Config) (s : State) (w : Nat) (hs : Option GoError) (k : Nat) (re : GoError),
        step cfg s (.helloDone w hs k re) = step cfg s (.helloDone w none k re)) ∧
      checkError (some errRecordHeader) = .ok "TLSRecordHeaderError" ∧
      tlsStage sampleCfg.residual (some errRecordHeader) =
        .ok ⟨"TLSRecordHeaderError", false, false, 0⟩ ∧
      hello true (some errRecordHeader) 0 errEOF = .ok (some errEOF) ∧
      step sampleCfg sampleHello (.helloDone 0 (some errRecordHeader) 0 errEOF) =
        some { sampleHello with
          pending := [⟨"192.0.2.1:443", true, 1005000000⟩]
          workers := [.report "example.com" ⟨"TLS", "EOF", "192.0.2.1:443", 1000000000⟩] } ∧
      evictedBy sampleCfg sampleHello (.helloDone 0 (some errRecordHeader) 0 errEOF) = none := by
  refine ⟨?_, by decide, by decide, by decide, by decide, by decide⟩
  intro cfg s w hs k re
  simp only [step, hello_eq]

/-- C6, as the claim states it, fails on the sample run: the dial fails with "socket: too
many open files", for which `checkError` panics; the process is down, the worker does not
borrow again and no release goroutine exists for the address. -/
theorem tcp_failure_counterexample :
    checkError (some errDialFiles) =
        .error "dial tcp 192.0.2.1:443: socket: too many open files" ∧
      step sampleCfg sampleDial (.dialDone 0 (some errDialFiles)) =
        some { sampleDial with crashed := true } ∧
      ({ sampleDial with crashed := true } : State).pending = [] ∧
      step sampleCfg { sampleDial with crashed := true } (.recvAddr 0) = none ∧
      step sampleCfg { sampleDial with crashed := true } (.tick 30000000000) = none := by
  decide

/-- C6 (amended). Worker `w` inside `dialer.Dial` with its attempt on `v.addr`, the dial
fails, and `checkError` returns a code for the error (it does not panic). Then no record
is added, the worker is back at the borrow of the attempt loop for the same domain, the
channel is untouched by this step, and exactly one release goroutine is started for
`v.addr`: it pushes unless the code is Refused or UNREACHABLE, and it is due 30 s later
for Timeout and at once for any other code. A pushing release goroutine cannot push
before it is due; when due and the channel has room it pushes the address once and is
gone. -/
theorem tcp_failure_retries (cfg : Config) (s : State) (w : Nat) (j : String) (v : Vars)
    (err : GoError) (code : String)
    (hc : s.crashed = false) (hw : s.workers[w]? = some (.dial j v))
    (hcode : checkError (some err) = .ok code) :
    ∃ r : Release,
      step cfg s (.dialDone w (some err)) =
          some { s with
            pending := s.pending ++ [r]
            workers := s.workers.set w (.recvAddr j v) } ∧
        r.a = v.addr ∧
        (r.reuse = true ↔ code ≠ "Refused" ∧ code ≠ "UNREACHABLE") ∧
        r.wake = s.now + (if code = "Timeout" then 30000000000 else 0) ∧
        (∀ (t : State) (i : Nat), t.crashed = false → t.pending[i]? = some r →
          r.reuse = true →
          step cfg t (.wake i) =
            if r.wake ≤ t.now ∧ t.addrs.length < cfg.maxNumAddrs then
              some { t with addrs := t.addrs ++ [v.addr], pending := t.pending.eraseIdx i }
            else none) := by
  cases hd : tcpFailure err with
  | error m =>
    simp [tcpFailure, hcode, Except.map] at hd
  | ok d =>
    obtain ⟨h1, _, h3, h4⟩ := tcpFailure_ok err d hd
    have hdc : d.code = code := by
      rw [hcode] at h1
      exact (Except.ok.inj h1).symm
    refine ⟨d.release v s.now, step_dialDone_some cfg s w j v err d hc hw hd, rfl, ?_, ?_, ?_⟩
    · rw [← hdc]; exact h3
    · simp only [Decision.release, h4, hdc]
      by_cases ht : code = "Timeout" <;> simp [ht, second]
    · intro t i htc htp hreuse
      exact step_wake_reuse cfg t i _ htc htp hreuse

/-- C6 (amended), on the sample run with a dial timeout. -/
theorem tcp_failure_retries_witness :
    ∃ r : Release,
      step sampleCfg sampleDial (.dialDone 0 (some errDialTimeout)) =
          some { sampleDial with
            pending := [r]
            workers := [.recvAddr "example.com" ⟨"TCP", "", "192.0.2.1:443", 1000000000⟩] } ∧
        r.wake = 31000000000 := by
  obtain ⟨r, h1, _, _, h4, _⟩ :=
    tcp_failure_retries sampleCfg sampleDial 0 "example.com"
      ⟨"TCP", "", "192.0.2.1:443", 1000000000⟩ errDialTimeout "Timeout" (by decide) (by decide)
      (by decide)
  exact ⟨r, h1, h4⟩

/-- C7. The error that `hello` returns is never nil when the connection is not nil,
whatever the handshake returned: it is the error that ended the read loop. On the sample
run, with a handshake that completes and a peer that then closes, `hello` returns
`io.EOF` and the worker reports code EOF, not Success. -/
theorem hello_never_returns_nil :
    (∀ (hs : Option GoError) (k : Nat) (re : GoError), hello true hs k re ≠ .ok none) ∧
      hello true none 0 errEOF = .ok (some errEOF) ∧
      step sampleCfg sampleHello (.helloDone 0 none 0 errEOF) =
        some { sampleHello with
          pending := [⟨"192.0.2.1:443", true, 1005000000⟩]
          workers := [.report "example.com" ⟨"TLS", "EOF", "192.0.2.1:443", 1000000000⟩] } := by
  refine ⟨?_, by decide, by decide⟩
  intro hs k re h
  rw [hello_eq] at h
  cases hc : checkError (some re) <;> simp [hc, Except.map] at h

/-- C8. A `*net.OpError` whose `Op` is "write" gets the empty code from `checkError`; the
TLS stage of the worker then takes the final `else` branch. -/
theorem checkError_empty_code :
    checkError (some errWritePipe) = .ok "" ∧
      tlsStage sampleCfg.residual (some errWritePipe) = .ok ⟨"", false, true, 0⟩ := by
  decide

/-- C9. The bare `syscall.ECONNREFUSED` gets the code Timeout from `checkError`, so the
TCP stage of the worker keeps the address and cools it down for 30 s; the refused dial
error gets Refused and the address is not reused. -/
theorem checkError_econnrefused :
    checkError (some (.errno ECONNREFUSED)) = .ok "Timeout" ∧
      tcpFailure (.errno ECONNREFUSED) = .ok ⟨"Timeout", false, true, 30 * second⟩ ∧
      tcpFailure errDialRefused = .ok ⟨"Refused", false, false, 0⟩ := by
  decide

/-- C10, as the claim states it, fails on the sample run with a single address: after the
refused dial the worker waits at the borrow of the attempt loop for `example.com`; it
cannot take the next job, and in no continuation of the run does it leave the borrow. -/
theorem exhausted_pool_counterexample :
    run { sampleCfg with maxNumAddrs := 1 }
        (init ["example.com", "example.org"] ["192.0.2.1:443"] 1)
        [.feedAddr, .recvJob 0, .recvAddr 0, .dialDone 0 (some errDialRefused)] =
        some sampleExhausted ∧
      step { sampleCfg with maxNumAddrs := 1 } sampleExhausted (.recvJob 0) = none ∧
      ¬ ∃ (evs : List Event) (s' : State),
        run { sampleCfg with maxNumAddrs := 1 } sampleExhausted evs = some s' ∧
          (s'.workers[0]? ≠ some (.recvAddr "example.com" ⟨"TCP", "", "192.0.2.1:443", 0⟩) ∨
            Event.recvJob 0 ∈ evs ∨ Event.send 0 ∈ evs) := by
  refine ⟨by decide, by decide, ?_⟩
  rintro ⟨evs, s', hrun, hbad⟩
  obtain ⟨h1, _, h3⟩ := dead_pool_run { sampleCfg with maxNumAddrs := 1 } 0 "example.com"
    ⟨"TCP", "", "192.0.2.1:443", 0⟩ evs sampleExhausted s' (by decide) (by decide) hrun
  rcases hbad with hb | hb | hb
  · exact hb h1
  · exact (h3 _ hb).2.1 rfl
  · exact (h3 _ hb).1 rfl

/-- C10 (amended). Worker `w` waits at the borrow of the attempt loop for domain `j`, and
no address is in circulation: none waits in the pool-filling goroutine, the channel is
empty, no attempt holds one and no release goroutine will push one. Then along every
continuation of the run the worker is still at that borrow with the same variables, the
channel is still empty, and no event of the run is a send, a job receive or a borrow of
`w`: no record is sent for `j` and the worker takes no further job. -/
theorem exhausted_pool_blocks (cfg : Config) (s s' : State) (w : Nat) (j : String) (v : Vars)
    (evs : List Event)
    (hw : s.workers[w]? = some (.recvAddr j v))
    (hfeed : s.feed = []) (haddrs : s.addrs = [])
    (hheld : ∀ ws ∈ s.workers, heldAddr ws = none)
    (hpend : ∀ r ∈ s.pending, r.reuse = false)
    (hrun : run cfg s evs = some s') :
    s'.workers[w]? = some (.recvAddr j v) ∧ s'.addrs = [] ∧
      (∀ e ∈ evs, e ≠ .send w ∧ e ≠ .recvJob w ∧ e ≠ .recvAddr w) ∧
      step cfg s' (.send w) = none ∧ step cfg s' (.recvJob w) = none ∧
      step cfg s' (.recvAddr w) = none := by
  have hz : occP (fun _ => true) s = 0 := by
    have h3 : s.workers.countP (holdsP fun _ => true) = 0 :=
      List.countP_eq_zero.mpr fun ws hws => by simp [holdsP, hheld ws hws]
    have h4 : s.pending.countP (pushesP fun _ => true) = 0 :=
      List.countP_eq_zero.mpr fun r hr => by simp [pushesP, hpend r hr]
    simp [occP, hfeed, haddrs, h3, h4]
  obtain ⟨h1, h2, h3⟩ := dead_pool_run cfg w j v evs s s' hw hz hrun
  have ha : s'.addrs = [] := by
    have := (occP_zero _ s' h2).2.1
    cases hl : s'.addrs with
    | nil => rfl
    | cons a rest => exact absurd rfl (this a (by simp [hl]))
  refine ⟨h1, ha, h3, ?_, ?_, ?_⟩
  · simp [step, h1]
  · simp [step, h1]
  · simp [step, h1, ha]

/-- C10 (amended), on the sample run with a single address, continued by a tick and
the end of the release goroutine. -/
theorem exhausted_pool_blocks_witness :
    step { sampleCfg with maxNumAddrs := 1 }
      { sampleExhausted with now := 5, pending := [] } (.recvJob 0) = none :=
  (exhausted_pool_blocks { sampleCfg with maxNumAddrs := 1 } sampleExhausted
    { sampleExhausted with now := 5, pending := [] } 0 "example.com"
    ⟨"TCP", "", "192.0.2.1:443", 0⟩ [.tick 5, .wake 0]
    (by decide) (by decide) (by decide) (by decide) (by decide) (by decide)).2.2.2.2.1

theorem poolAddrs_length (ips : List String) (ports : List Int) :
    (poolAddrs ips ports).length = ips.length * ports.length := by
  induction ports with
  | nil => simp [poolAddrs]
  | cons p ps ih => simp [poolAddrs, ih, Nat.mul_succ, Nat.add_comm]

theorem poolAddrs_getElem? (ips : List String) (ports : List Int) (k : Nat) :
    (poolAddrs ips ports)[k]? =
      (ports[k / ips.length]?).bind fun port =>
        (ips[k % ips.length]?).map fun ip => joinHostPort ip (itoa port) := by
  induction ports generalizing k with
  | nil => simp [poolAddrs]
  | cons p ps ih =>
    by_cases hk : k < ips.length
    · have h0 : k / ips.length = 0 := Nat.div_eq_of_lt hk
      simp [poolAddrs, List.getElem?_append_left, hk, h0, Nat.mod_eq_of_lt hk]
    · have hle : ips.length ≤ k := Nat.le_of_not_lt hk
      by_cases hn : ips.length = 0
      · have hnil : ips = [] := List.length_eq_zero.mp hn
        subst hnil
        have hlen : (poolAddrs [] (p :: ps)).length = 0 := by simp [poolAddrs_length]
        rw [List.length_eq_zero.mp hlen]
        simp
      · have hpos : 0 < ips.length := Nat.pos_of_ne_zero hn
        have hdiv : k / ips.length = (k - ips.length) / ips.length + 1 := by
          rw [Nat.div_eq k, if_pos ⟨hpos, hle⟩]
        have hmod : k % ips.length = (k - ips.length) % ips.length := Nat.mod_eq_sub_mod hle
        rw [poolAddrs, List.getElem?_append_right (by simpa using hle)]
        simp only [List.length_map]
        rw [ih, hdiv, hmod]
        simp

theorem poolAddrs_block (ips : List String) (ports : List Int) (q : Nat) (port : Int)
    (hq : ports[q]? = some port) :
    ((poolAddrs ips ports).drop (q * ips.length)).take ips.length =
      ips.map fun ip => joinHostPort ip (itoa port) := by
  induction ports generalizing q with
  | nil => simp at hq
  | cons p ps ih =>
    cases q with
    | zero =>
      simp only [List.getElem?_cons_zero, Option.some.injEq] at hq
      subst hq
      simp [poolAddrs, List.take_append_eq_append_take]
    | succ q =>
      simp only [List.getElem?_cons_succ] at hq
      have := ih q hq
      have hlen : (q + 1) * ips.length =
          (ips.map fun ip => joinHostPort ip (itoa p)).length + q * ips.length := by
        simp [Nat.succ_mul, Nat.add_comm]
      rw [poolAddrs, hlen, List.drop_append]
      exact this

theorem joinHostPort_inj (port h1 h2 : String)
    (h : joinHostPort h1 port = joinHostPort h2 port) : h1 = h2 := by
  have hd := congrArg String.data h
  unfold joinHostPort at hd
  apply String.ext
  split_ifs at hd with c1 c2 c2
  · simpa [String.data_append] using hd
  · exfalso
    simp only [String.data_append] at hd
    have hd' : '[' :: (h1.data ++ [']']) = h2.data := by
      have : ('[' :: (h1.data ++ [']'])) ++ (':' :: port.data) = h2.data ++ (':' :: port.data) := by
        simpa using hd
      exact List.append_cancel_right this
    have hsub : ∀ c ∈ h1.data, c ∈ h2.data := by
      intro c hc
      rw [← hd']
      simp [hc]
    simp only [String.toList] at c1 c2
    exact c2 (hsub _ c1)
  · exfalso
    simp only [String.data_append] at hd
    have hd' : h1.data = '[' :: (h2.data ++ [']']) := by
      have : h1.data ++ (':' :: port.data) = ('[' :: (h2.data ++ [']'])) ++ (':' :: port.data) := by
        simpa using hd
      exact List.append_cancel_right this
    have hsub : ∀ c ∈ h2.data, c ∈ h1.data := by
      intro c hc
      rw [hd']
      simp [hc]
    simp only [String.toList] at c1 c2
    exact c1 (hsub _ c2)
  · have : h1.data ++ (':' :: port.data) = h2.data ++ (':' :: port.data) := by
      simpa [String.data_append] using hd
    exact List.append_cancel_right this

theorem run_feed (cfg : Config) :
    ∀ (feed : List String) (s : State), s.feed = feed → s.crashed = false →
      s.addrs.length + feed.length ≤ cfg.maxNumAddrs →
      run cfg s (List.replicate feed.length .feedAddr) =
        some { s with feed := [], addrs := s.addrs ++ feed } := by
  intro feed
  induction feed with
  | nil =>
    intro s hf _ _
    cases s
    simp_all [run]
  | cons a rest ih =>
    intro s hf hc hcap
    have hlt : s.addrs.length < cfg.maxNumAddrs := by
      simp only [List.length_cons] at hcap; omega
    have hstep : step cfg s .feedAddr = some { s with feed := rest, addrs := s.addrs ++ [a] } := by
      simp [step, hc, hf, hlt]
    simp only [List.length_cons, List.replicate_succ, run, hstep, Option.some_bind]
    rw [ih { s with feed := rest, addrs := s.addrs ++ [a] } rfl hc (by simp only [List.length_append, List.length_cons, List.length_nil] at hcap ⊢; omega)]
    simp

/-- C11. The addresses pushed by the pool-filling goroutine of `main` for the IP strings
`ips` and the ports `ports` number `len(ips) * len(ports)`; the entry at position `k` is
`JoinHostPort(ips[k mod n], Itoa(ports[k div n]))` with `n = len(ips)`; the `n` entries
from position `q * n` on are the addresses of all of `ips`, in order, on the one port
`ports[q]`, pairwise distinct when the IPs are; and the goroutine's pushes put exactly
this sequence, in this order, into the channel. -/
theorem pool_fill_order (ips : List String) (ports : List Int) :
    (poolAddrs ips ports).length = ips.length * ports.length ∧
      (∀ k : Nat, k < ips.length * ports.length →
        ∃ ip port, ips[k % ips.length]? = some ip ∧ ports[k / ips.length]? = some port ∧
          (poolAddrs ips ports)[k]? = some (joinHostPort ip (itoa port))) ∧
      (∀ (q : Nat) (port : Int), ports[q]? = some port →
        ((poolAddrs ips ports).drop (q * ips.length)).take ips.length =
            ips.map (fun ip => joinHostPort ip (itoa port)) ∧
          (ips.Nodup →
            (((poolAddrs ips ports).drop (q * ips.length)).take ips.length).Nodup)) ∧
      (∀ (residual : Int) (lines : List String) (maxNumWorkers : Nat),
        run (mainCfg residual ips ports) (mainInit lines ips ports maxNumWorkers)
            (List.replicate (ips.length * ports.length) .feedAddr) =
          some { mainInit lines ips ports maxNumWorkers with
            feed := [], addrs := poolAddrs ips ports }) := by
  refine ⟨poolAddrs_length ips ports, ?_, ?_, ?_⟩
  · intro k hk
    have hn : 0 < ips.length := by
      rcases Nat.eq_zero_or_pos ips.length with h0 | h0
      · rw [h0] at hk; simp at hk
      · exact h0
    have hmod : k % ips.length < ips.length := Nat.mod_lt _ hn
    have hdiv : k / ips.length < ports.length := Nat.div_lt_of_lt_mul hk
    refine ⟨ips[k % ips.length], ports[k / ips.length], ?_, ?_, ?_⟩
    · exact List.getElem?_eq_getElem hmod
    · exact List.getElem?_eq_getElem hdiv
    · rw [poolAddrs_getElem?, List.getElem?_eq_getElem hdiv, List.getElem?_eq_getElem hmod]
      rfl
  · intro q port hq
    have hb := poolAddrs_block ips ports q port hq
    refine ⟨hb, fun hnd => ?_⟩
    rw [hb]
    exact hnd.map (fun a b hab => joinHostPort_inj _ a b hab)
  · intro residual lines maxNumWorkers
    have := run_feed (mainCfg residual ips ports) (poolAddrs ips ports)
      (mainInit lines ips ports maxNumWorkers) rfl rfl
      (by simp [mainInit, init, mainCfg, poolAddrs_length, Nat.mul_comm])
    rw [poolAddrs_length] at this
    simpa [mainInit, init] using this

theorem step_occP_eq (cfg : Config) (p : String → Bool) (s s' : State) (e : Event)
    (h : step cfg s e = some s') :
    occP p s' + (evictedBy cfg s e).toList.countP p = occP p s := by
  unfold step at h
  split at h
  · simp at h
  · split at h
    · -- tick
      simp at h; subst h; simp [occP, evictedBy]
    · -- feedAddr
      split at h
      · simp at h
      · rename_i a rest hfeed
        split at h
        · simp at h; subst h
          simp [occP, evictedBy, hfeed, List.countP_cons, List.countP_append]
          omega
        · simp at h
    · -- recvJob
      split at h
      · rename_i w hw
        have := countP_set_add (holdsP p) s.workers _ _ WState.returned hw
        have h2 := fun j => countP_set_add (holdsP p) s.workers _ _ (WState.recvAddr j Vars.zero) hw
        split at h
        · simp at h; subst h
          simp [occP, evictedBy, holdsP, heldAddr] at this ⊢
          omega
        · rename_i j rest hjobs
          have h2 := h2 j
          split at h
          · simp at h; subst h; simp [occP, evictedBy]
          · simp at h; subst h
            simp [occP, evictedBy, holdsP, heldAddr] at h2 ⊢
            omega
      · simp at h
    · -- recvAddr
      split at h
      · rename_i w j v hw
        split at h
        · simp at h
        · rename_i a rest haddrs
          simp at h; subst h
          have := countP_set_add (holdsP p) s.workers _ _
            (WState.dial j { v with addr := a, startTime := s.now, stage := "TCP" }) hw
          simp [occP, evictedBy, holdsP, heldAddr, haddrs, List.countP_cons] at this ⊢
          omega
      · simp at h
    · -- dialDone none
      split at h
      · rename_i w j v hw
        simp at h; subst h
        have := countP_set_add (holdsP p) s.workers _ _
            (WState.hello j { v with stage := "TLS" }) hw
        simp [occP, evictedBy, holdsP, heldAddr] at this ⊢
        omega
      · simp at h
    · -- dialDone some
      split at h
      · rename_i w j v hw
        split at h
        · rename_i m hm
          simp at h; subst h; simp [occP, evictedBy, hw, hm]
        · rename_i d hd
          simp at h; subst h
          have := countP_set_add (holdsP p) s.workers _ _ (WState.recvAddr j v) hw
          by_cases hp : p v.addr <;> by_cases hr : d.reuseAddr <;>
            simp [occP, evictedBy, hw, hd, holdsP, heldAddr, List.countP_append,
              List.countP_cons, pushesP, Decision.release, hp, hr] at this ⊢ <;> omega
      · simp at h
    · -- helloDone
      split at h
      · rename_i w j v hw
        split at h
        · rename_i m hm
          simp at h; subst h; simp [occP, evictedBy, hw, hm]
        · rename_i d hd
          simp at h; subst h
          by_cases hs : d.success
          · have := countP_set_add (holdsP p) s.workers _ _
              (WState.report j { v with code := d.code }) hw
            by_cases hp : p v.addr <;> by_cases hr : d.reuseAddr <;>
              simp [occP, evictedBy, hw, hd, holdsP, heldAddr, List.countP_append,
                List.countP_cons, pushesP, Decision.release, hs, hp, hr] at this ⊢ <;> omega
          · have := countP_set_add (holdsP p) s.workers _ _
              (WState.recvAddr j { v with code := d.code }) hw
            by_cases hp : p v.addr <;> by_cases hr : d.reuseAddr <;>
              simp [occP, evictedBy, hw, hd, holdsP, heldAddr, List.countP_append,
                List.countP_cons, pushesP, Decision.release, hs, hp, hr] at this ⊢ <;> omega
      · simp at h
    · -- send
      split at h
      · rename_i w j v hw
        simp at h; subst h
        have := countP_set_add (holdsP p) s.workers _ _ WState.recvJob hw
        simp [occP, evictedBy, holdsP, heldAddr] at this ⊢
        omega
      · simp at h
    · -- wake
      split at h
      · rename_i i r hr
        have := countP_eraseIdx_add (pushesP p) s.pending _ _ hr
        split at h
        · split at h
          · rename_i hreuse
            split at h
            · simp at h; subst h
              simp [occP, evictedBy, List.countP_append, List.countP_cons, pushesP, hreuse] at this ⊢
              split_ifs at this ⊢ <;> omega
            · simp at h
          · rename_i hreuse
            simp at h; subst h
            simp [occP, evictedBy, pushesP, hreuse] at this ⊢
            omega
        · simp at h
      · simp at h


theorem run_append (cfg : Config) (evs1 evs2 : List Event) :
    ∀ s : State, run cfg s (evs1 ++ evs2) = (run cfg s evs1).bind fun s1 => run cfg s1 evs2 := by
  induction evs1 with
  | nil => intro s; rfl
  | cons e es ih =>
    intro s
    simp only [List.cons_append, run]
    cases step cfg s e with
    | none => rfl
    | some s1 => simp only [Option.some_bind]; exact ih s1

theorem evictions_append (cfg : Config) (evs1 evs2 : List Event) :
    ∀ s s1 : State, run cfg s evs1 = some s1 →
      evictions cfg s (evs1 ++ evs2) = evictions cfg s evs1 ++ evictions cfg s1 evs2 := by
  induction evs1 with
  | nil =>
    intro s s1 h
    simp only [run, Option.some.injEq] at h
    subst h
    simp [evictions]
  | cons e es ih =>
    intro s s1 h
    simp only [run] at h
    cases hs : step cfg s e with
    | none => simp [hs] at h
    | some s2 =>
      simp only [hs, Option.some_bind] at h
      have hih := ih s2 s1 h
      simp only [List.cons_append, evictions, hs, List.append_assoc]
      exact congrArg _ hih

theorem run_occP_eq (cfg : Config) (p : String → Bool) (evs : List Event) :
    ∀ s s' : State, run cfg s evs = some s' →
      occP p s' + (evictions cfg s evs).countP p = occP p s := by
  induction evs with
  | nil =>
    intro s s' h
    simp only [run, Option.some.injEq] at h
    subst h
    simp [evictions]
  | cons e es ih =>
    intro s s' h
    simp only [run] at h
    cases hs : step cfg s e with
    | none => simp [hs] at h
    | some s1 =>
      simp only [hs, Option.some_bind] at h
      have h1 := ih s1 s' h
      have h2 := step_occP_eq cfg p s s1 e hs
      simp only [evictions, hs, List.countP_append]
      omega

theorem occP_init (p : String → Bool) (jobs pool : List String) (n : Nat) :
    occP p (init jobs pool n) = pool.countP p := by
  simp [occP, init, List.countP_replicate, holdsP, heldAddr]

/-- C12. The run starts from `main`'s start state with pairwise distinct pool addresses
and a channel of capacity `len(pool)`. In every state it reaches, each pool address is
counted exactly once among: waiting in the pool-filling goroutine, in the channel
(available), held by an attempt (in use), held by a release goroutine that will push it
(cooling), evicted earlier in the run; once the pool-filling goroutine is done the first
of these is empty and the address is in exactly one of the four states available, in
use, cooling, evicted. An address evicted in the run stays evicted in every continuation:
it is never again in the channel, held by an attempt or held by a pushing release
goroutine. The channel never holds more than its capacity, and whenever a release
goroutine that pushes is pending the channel has room, so that its push is enabled as
soon as it is due. -/
theorem endpoint_states (cfg : Config) (jobs pool : List String) (n : Nat)
    (evs : List Event) (s : State)
    (hpool : pool.Nodup) (hcap : cfg.maxNumAddrs = pool.length)
    (hrun : run cfg (init jobs pool n) evs = some s) :
    (∀ a ∈ pool,
        s.feed.count a + s.addrs.count a + s.workers.countP (holdsP fun x => x == a) +
          s.pending.countP (pushesP fun x => x == a) +
          (evictions cfg (init jobs pool n) evs).count a = 1) ∧
      (s.feed = [] → ∀ a ∈ pool,
        s.addrs.count a + s.workers.countP (holdsP fun x => x == a) +
          s.pending.countP (pushesP fun x => x == a) +
          (evictions cfg (init jobs pool n) evs).count a = 1) ∧
      (∀ a ∈ evictions cfg (init jobs pool n) evs, ∀ (evs' : List Event) (s' : State),
        run cfg s evs' = some s' →
        a ∈ evictions cfg (init jobs pool n) (evs ++ evs') ∧ a ∉ s'.addrs ∧
          (∀ ws ∈ s'.workers, heldAddr ws ≠ some a) ∧
          (∀ r ∈ s'.pending, r.a = a → r.reuse = false)) ∧
      s.addrs.length ≤ cfg.maxNumAddrs ∧
      (∀ (i : Nat) (r : Release), s.pending[i]? = some r → r.reuse = true →
        s.addrs.length < cfg.maxNumAddrs ∧
          (s.crashed = false → r.wake ≤ s.now →
            step cfg s (.wake i) =
              some { s with addrs := s.addrs ++ [r.a], pending := s.pending.eraseIdx i })) := by
  have hcount : ∀ (evs0 : List Event) (s0 : State), run cfg (init jobs pool n) evs0 = some s0 →
      ∀ a, s0.feed.count a + s0.addrs.count a + s0.workers.countP (holdsP fun x => x == a) +
          s0.pending.countP (pushesP fun x => x == a) +
          (evictions cfg (init jobs pool n) evs0).count a = pool.count a := by
    intro evs0 s0 h0 a
    have := run_occP_eq cfg (fun x => x == a) evs0 _ s0 h0
    rw [occP_init] at this
    simpa [occP, List.count_eq_countP] using this
  have htotal : s.feed.length + s.addrs.length + s.workers.countP (holdsP fun _ => true) +
      s.pending.countP (pushesP fun _ => true) ≤ pool.length := by
    have := run_occP_le cfg (fun _ => true) evs _ s hrun
    rw [occP_init] at this
    simpa [occP] using this
  refine ⟨?_, ?_, ?_, ?_, ?_⟩
  · intro a ha
    rw [hcount evs s hrun a]
    exact List.count_eq_one_of_mem hpool ha
  · intro hfeed a ha
    have := hcount evs s hrun a
    rw [hfeed, List.count_eq_one_of_mem hpool ha] at this
    simpa using this
  · intro a ha evs' s' hrun'
    have hrun2 : run cfg (init jobs pool n) (evs ++ evs') = some s' := by
      rw [run_append, hrun]; exact hrun'
    have hmem : a ∈ evictions cfg (init jobs pool n) (evs ++ evs') := by
      rw [evictions_append cfg evs evs' _ s hrun]
      exact List.mem_append_left _ ha
    have hc := hcount (evs ++ evs') s' hrun2 a
    have hle : pool.count a ≤ 1 := List.nodup_iff_count_le_one.mp hpool a
    have hpos : 0 < (evictions cfg (init jobs pool n) (evs ++ evs')).count a :=
      List.count_pos_iff.mpr hmem
    have h1 : s'.addrs.count a = 0 := by omega
    have h2 : s'.workers.countP (holdsP fun x => x == a) = 0 := by omega
    have h3 : s'.pending.countP (pushesP fun x => x == a) = 0 := by omega
    refine ⟨hmem, List.count_eq_zero.mp h1, ?_, ?_⟩
    · intro ws hws hheld
      exact List.countP_eq_zero.mp h2 ws hws (by simp [holdsP, hheld])
    · intro r hr hra
      cases hrr : r.reuse with
      | false => rfl
      | true => exact absurd (by simp [pushesP, hrr, hra]) (List.countP_eq_zero.mp h3 r hr)
  · rw [hcap]; omega
  · intro i r hr hreuse
    have hpos : 0 < s.pending.countP (pushesP fun _ => true) :=
      List.countP_pos_iff.mpr ⟨r, List.getElem?_mem hr, by simp [pushesP, hreuse]⟩
    have hlt : s.addrs.length < cfg.maxNumAddrs := by rw [hcap]; omega
    refine ⟨hlt, fun hc hdue => ?_⟩
    rw [step_wake_reuse cfg s i r hc hr hreuse, if_pos ⟨hdue, hlt⟩]

/-- C12, on the sample run after the refused dial: `192.0.2.1:443` is in none of the
states available, in use, cooling, and is counted once as evicted. -/
theorem endpoint_states_witness :
    sampleEvicted.addrs.count "192.0.2.1:443" +
        sampleEvicted.workers.countP (holdsP fun x => x == "192.0.2.1:443") +
        sampleEvicted.pending.countP (pushesP fun x => x == "192.0.2.1:443") +
        (evictions sampleCfg
          (init ["example.com", "example.org"] ["192.0.2.1:443", "192.0.2.2:443"] 1)
          [.feedAddr, .feedAddr, .recvJob 0, .tick 1000000000, .recvAddr 0,
            .dialDone 0 (some errDialRefused)]).count "192.0.2.1:443" = 1 ∧
      evictions sampleCfg
          (init ["example.com", "example.org"] ["192.0.2.1:443", "192.0.2.2:443"] 1)
          [.feedAddr, .feedAddr, .recvJob 0, .tick 1000000000, .recvAddr 0,
            .dialDone 0 (some errDialRefused)] = ["192.0.2.1:443"] :=
  ⟨(endpoint_states sampleCfg ["example.com", "example.org"]
      ["192.0.2.1:443", "192.0.2.2:443"] 1
      [.feedAddr, .feedAddr, .recvJob 0, .tick 1000000000, .recvAddr 0,
        .dialDone 0 (some errDialRefused)]
      sampleEvicted (by decide) (by decide) (by decide)).2.1 rfl "192.0.2.1:443" (by decide),
    by decide⟩

theorem bind_tlsStage_ok (residual : Int) (hs : Option GoError) (k : Nat) (re : GoError)
    (d : Decision) (h : (hello true hs k re).bind (tlsStage residual) = .ok d) :
    ∃ herr, tlsStage residual herr = .ok d := by
  cases hh : hello true hs k re with
  | error m => simp [hh, Except.bind] at h
  | ok herr => exact ⟨herr, by simpa [hh, Except.bind] using h⟩

theorem local_jobOK (cfg : Config) (s : State) (w : Nat) (e : Event) (old new : WState)
    (h : Local cfg s w e old new) (ho : jobOK old) : jobOK new := by
  cases h with
  | closed => trivial
  | job j hj => exact hj
  | borrow j v a rest ha => exact ho
  | connected j v => exact ⟨ho, rfl⟩
  | tcpFailed j v err d hd => exact ho
  | tlsDone j v hs k re d hd =>
    obtain ⟨herr, hd'⟩ := bind_tlsStage_ok cfg.residual hs k re d hd
    by_cases hsucc : d.success
    · simp only [hsucc, if_true]
      exact ⟨ho.1, ho.2, (tlsStage_ok cfg.residual herr d hd').1.mp hsucc⟩
    · simp only [hsucc]
      exact ho.1
  | sent j v => trivial

theorem local_jobOf (cfg : Config) (s : State) (w : Nat) (e : Event) (old new : WState)
    (h : Local cfg s w e old new) :
    jobOf new = jobOf old ∨ (∃ w', e = .recvJob w') ∨ (∃ w', e = .send w') := by
  cases h with
  | closed => right; left; exact ⟨w, rfl⟩
  | job j hj => right; left; exact ⟨w, rfl⟩
  | borrow j v a rest ha => left; rfl
  | connected j v => left; rfl
  | tcpFailed j v err d hd => left; rfl
  | tlsDone j v hs k re d hd =>
    left
    by_cases hsucc : d.success
    · simp only [hsucc, if_true]; rfl
    · simp only [hsucc]; rfl
  | sent j v => right; right; exact ⟨w, rfl⟩

theorem local_addrOf (cfg : Config) (s : State) (w : Nat) (e : Event) (old new : WState)
    (h : Local cfg s w e old new) (he : e ≠ .recvAddr w) :
    addrOf (some new) = addrOf (some old) ∨ addrOf (some new) = none := by
  cases h with
  | closed => right; rfl
  | job j hj => right; rfl
  | borrow j v a rest ha => exact absurd rfl he
  | connected j v => left; rfl
  | tcpFailed j v err d hd => right; rfl
  | tlsDone j v hs k re d hd =>
    by_cases hsucc : d.success
    · left; simp only [hsucc, if_true]; rfl
    · right; simp only [hsucc]; rfl
  | sent j v => right; rfl

/-- Between two borrows of worker `w` the address it will report does not change. -/
theorem run_addrOf (cfg : Config) (w : Nat) (a : String) (evs : List Event) :
    ∀ s s' : State,
      (addrOf s.workers[w]? = some a ∨ addrOf s.workers[w]? = none) →
      (∀ e ∈ evs, e ≠ .recvAddr w) → run cfg s evs = some s' →
      (addrOf s'.workers[w]? = some a ∨ addrOf s'.workers[w]? = none) := by
  induction evs with
  | nil => intro s s' hq _ h; simp [run] at h; subst h; exact hq
  | cons e es ih =>
    intro s s' hq hne h
    simp only [run] at h
    cases hs : step cfg s e with
    | none => simp [hs] at h
    | some s1 =>
      simp only [hs, Option.some_bind] at h
      refine ih s1 s' ?_ (fun e' he' => hne e' (List.mem_cons_of_mem _ he')) h
      rcases step_worker cfg s s1 e w hs with hsame | ⟨old, new, hold, hnew, hloc⟩
      · rw [hsame]; exact hq
      · rw [hnew]
        rcases local_addrOf cfg s w e old new hloc (hne e (List.mem_cons_self _ _)) with h1 | h1
        · rw [h1, ← hold]; exact hq
        · right; exact h1

/-- Only a send changes the results, and it appends the record of the sending worker. -/
theorem step_results (cfg : Config) (s s' : State) (e : Event)
    (h : step cfg s e = some s') :
    s'.results = s.results ∨
      ∃ w j v, e = .send w ∧ s.workers[w]? = some (.report j v) ∧
        s'.results = s.results ++ [record j v s.now] := by
  cases e with
  | send w =>
    obtain ⟨j, v, hw, hs'⟩ := step_send_inv cfg s s' w h
    right
    exact ⟨w, j, v, rfl, hw, by rw [hs']⟩
  | tick dt => left; simp [step] at h; obtain ⟨_, h⟩ := h; subst h; rfl
  | feedAddr =>
    left
    simp only [step] at h
    split at h
    · simp at h
    · split at h
      · simp at h
      · split at h
        · simp at h; subst h; rfl
        · simp at h
  | recvJob w =>
    left
    simp only [step] at h
    split at h
    · simp at h
    · split at h
      · split at h
        · simp at h; subst h; rfl
        · split at h <;> (simp at h; subst h; rfl)
      · simp at h
  | recvAddr w =>
    left
    obtain ⟨j, v, a, rest, _, _, hs'⟩ := step_recvAddr_inv cfg s s' w h
    rw [hs']
  | dialDone w err =>
    left
    cases err with
    | none =>
      simp only [step] at h
      split at h
      · simp at h
      · split at h
        · simp at h; subst h; rfl
        · simp at h
    | some err =>
      simp only [step] at h
      split at h
      · simp at h
      · split at h
        · split at h <;> (simp at h; subst h; rfl)
        · simp at h
  | helloDone w hs k re =>
    left
    simp only [step] at h
    split at h
    · simp at h
    · split at h
      · split at h <;> (simp at h; subst h; rfl)
      · simp at h
  | wake i =>
    left
    simp only [step] at h
    split at h
    · simp at h
    · split at h
      · split at h
        · split at h
          · split at h
            · simp at h; subst h; rfl
            · simp at h
          · simp at h; subst h; rfl
        · simp at h
      · simp at h

theorem record_good (j : String) (v : Vars) (t : Nat) (h : jobOK (.report j v)) :
    goodRecord (record j v t) := by
  obtain ⟨h1, h2, h3⟩ := h
  refine ⟨formatInt (unixMilli v.startTime), j, v.code, v.addr,
    formatInt (milliseconds (timeSub t v.startTime)), ?_, ?_, h3⟩
  · simp [record, h2]
  · intro hj
    subst hj
    exact h1 rfl

theorem run_jobOK (cfg : Config) (evs : List Event) :
    ∀ s s' : State,
      ((∀ (w : Nat) ws, s.workers[w]? = some ws → jobOK ws) ∧ ∀ r ∈ s.results, goodRecord r) →
      run cfg s evs = some s' →
      ((∀ (w : Nat) ws, s'.workers[w]? = some ws → jobOK ws) ∧
        ∀ r ∈ s'.results, goodRecord r) := by
  induction evs with
  | nil => intro s s' hinv h; simp [run] at h; subst h; exact hinv
  | cons e es ih =>
    intro s s' hinv h
    simp only [run] at h
    cases hs : step cfg s e with
    | none => simp [hs] at h
    | some s1 =>
      simp only [hs, Option.some_bind] at h
      refine ih s1 s' ⟨?_, ?_⟩ h
      · intro w ws hws
        rcases step_worker cfg s s1 e w hs with hsame | ⟨old, new, hold, hnew, hloc⟩
        · exact hinv.1 w ws (hsame ▸ hws)
        · have hnw : new = ws := by
            rw [hnew] at hws
            exact Option.some.inj hws
          rw [← hnw]
          exact local_jobOK cfg s w e old new hloc (hinv.1 w old hold)
      · intro r hr
        rcases step_results cfg s s1 e hs with hsame | ⟨w, j, v, _, hw, hres⟩
        · exact hinv.2 r (hsame ▸ hr)
        · rw [hres] at hr
          rcases List.mem_append.mp hr with hr | hr
          · exact hinv.2 r hr
          · rw [List.mem_singleton.mp hr]
            exact record_good j v s.now (hinv.1 w _ hw)

theorem init_jobOK (jobs pool : List String) (n : Nat) :
    (∀ (w : Nat) ws, (init jobs pool n).workers[w]? = some ws → jobOK ws) ∧
      ∀ r ∈ (init jobs pool n).results, goodRecord r := by
  constructor
  · intro w ws h
    have hmem : ws ∈ (init jobs pool n).workers := List.getElem?_mem h
    simp only [init, List.mem_replicate] at hmem
    rw [hmem.2]
    trivial
  · intro r hr
    simp [init] at hr

theorem step_jobCount_le (cfg : Config) (j : String) (s s' : State) (e : Event)
    (h : step cfg s e = some s') : jobCount j s' ≤ jobCount j s := by
  cases e with
  | send w =>
    obtain ⟨j', v, hw, hs'⟩ := step_send_inv cfg s s' w h
    have := countP_set_add (busyWith j) s.workers w _ WState.recvJob hw
    subst hs'
    simp [jobCount, busyWith, jobOf, domainIs, record, List.countP_append, List.countP_cons]
      at this ⊢
    omega
  | tick dt => simp [step] at h; obtain ⟨_, h⟩ := h; subst h; exact le_refl _
  | feedAddr =>
    simp only [step] at h
    split at h
    · simp at h
    · split at h
      · simp at h
      · split at h
        · simp at h; subst h; exact le_refl _
        · simp at h
  | recvJob w =>
    simp only [step] at h
    split at h
    · simp at h
    · split at h
      · rename_i hw
        split at h
        · simp at h; subst h
          have := countP_set_add (busyWith j) s.workers w _ WState.returned hw
          simp [jobCount, busyWith, jobOf] at this ⊢
          omega
        · rename_i j' rest hjobs
          split at h
          · simp at h; subst h
            simp [jobCount, hjobs, List.count_cons]
          · simp at h; subst h
            have := countP_set_add (busyWith j) s.workers w _
              (WState.recvAddr j' Vars.zero) hw
            simp [jobCount, busyWith, jobOf, hjobs, List.count_cons] at this ⊢
            omega
      · simp at h
  | recvAddr w =>
    obtain ⟨j', v, a, rest, hw, _, hs'⟩ := step_recvAddr_inv cfg s s' w h
    have := countP_set_add (busyWith j) s.workers w _
      (WState.dial j' { v with addr := a, startTime := s.now, stage := "TCP" }) hw
    subst hs'
    simp [jobCount, busyWith, jobOf] at this ⊢
    omega
  | dialDone w err =>
    cases err with
    | none =>
      simp only [step] at h
      split at h
      · simp at h
      · split at h
        · rename_i j' v hw
          simp at h; subst h
          have := countP_set_add (busyWith j) s.workers w _
            (WState.hello j' { v with stage := "TLS" }) hw
          simp [jobCount, busyWith, jobOf] at this ⊢
          omega
        · simp at h
    | some err =>
      simp only [step] at h
      split at h
      · simp at h
      · split at h
        · rename_i j' v hw
          split at h
          · simp at h; subst h; exact le_refl _
          · simp at h; subst h
            have := countP_set_add (busyWith j) s.workers w _ (WState.recvAddr j' v) hw
            simp [jobCount, busyWith, jobOf] at this ⊢
            omega
        · simp at h
  | helloDone w hs k re =>
    simp only [step] at h
    split at h
    · simp at h
    · split at h
      · rename_i j' v hw
        split at h
        · simp at h; subst h; exact le_refl _
        · rename_i d hd
          simp at h; subst h
          by_cases hsucc : d.success
          · have := countP_set_add (busyWith j) s.workers w _
              (WState.report j' { v with code := d.code }) hw
            simp [jobCount, busyWith, jobOf, hsucc] at this ⊢
            omega
          · have := countP_set_add (busyWith j) s.workers w _
              (WState.recvAddr j' { v with code := d.code }) hw
            simp [jobCount, busyWith, jobOf, hsucc] at this ⊢
            omega
      · simp at h
  | wake i =>
    simp only [step] at h
    split at h
    · simp at h
    · split at h
      · split at h
        · split at h
          · split at h
            · simp at h; subst h; exact le_refl _
            · simp at h
          · simp at h; subst h; exact le_refl _
        · simp at h
      · simp at h

theorem run_jobCount_le (cfg : Config) (j : String) (evs : List Event) :
    ∀ s s' : State, run cfg s evs = some s' → jobCount j s' ≤ jobCount j s := by
  induction evs with
  | nil => intro s s' h; simp [run] at h; subst h; exact le_refl _
  | cons e es ih =>
    intro s s' h
    simp only [run] at h
    cases hs : step cfg s e with
    | none => simp [hs] at h
    | some s1 =>
      simp only [hs, Option.some_bind] at h
      exact le_trans (ih s1 s' h) (step_jobCount_le cfg j s s1 e hs)

/-- C13. In every state that a run from `main`'s start state reaches: every record sent
has exactly six fields, in the order start, domain, stage, code, endpoint, duration, with
stage TLS, a non-empty domain and a code among Timeout, RST, Success, EOF (so never stage
TCP nor any other code); for every domain the records sent for it, the workers working on
it and its occurrences left in the job queue together number at most its occurrences in
the input, so each job yields at most one record; no record is sent for the empty
domain; and a send of worker `w` appends exactly one record, whose endpoint field is the
address `w` received at its last borrow before the send. -/
theorem records_shape (cfg : Config) (jobs pool : List String) (n : Nat)
    (evs : List Event) (s : State)
    (hrun : run cfg (init jobs pool n) evs = some s) :
    (∀ r ∈ s.results, ∃ start j code addr dur,
        r = [start, j, "TLS", code, addr, dur] ∧ j ≠ "" ∧
          (code = "Timeout" ∨ code = "RST" ∨ code = "Success" ∨ code = "EOF")) ∧
      (∀ j : String,
        s.results.countP (domainIs j) + s.workers.countP (busyWith j) + s.jobs.count j ≤
          jobs.count j) ∧
      s.results.countP (domainIs "") = 0 ∧
      (∀ (evs1 evs2 : List Event) (s1 s' : State) (w : Nat) (a : String) (rest : List String),
        evs = evs1 ++ .recvAddr w :: evs2 → run cfg (init jobs pool n) evs1 = some s1 →
        s1.addrs = a :: rest → (∀ e ∈ evs2, e ≠ .recvAddr w) →
        step cfg s (.send w) = some s' →
        ∃ start j code dur, s'.results = s.results ++ [[start, j, "TLS", code, a, dur]]) := by
  obtain ⟨hjob, hrec⟩ := run_jobOK cfg evs _ s (init_jobOK jobs pool n) hrun
  refine ⟨hrec, ?_, ?_, ?_⟩
  · intro j
    have := run_jobCount_le cfg j evs _ s hrun
    simpa [jobCount, init, List.countP_replicate, busyWith, jobOf] using this
  · apply List.countP_eq_zero.mpr
    intro r hr hdom
    obtain ⟨start, j, code, addr, dur, hreq, hj, _⟩ := hrec r hr
    subst hreq
    simp [domainIs] at hdom
    exact hj hdom
  · intro evs1 evs2 s1 s' w a rest hevs hrun1 haddrs hlast hsend
    rw [hevs, run_append, hrun1] at hrun
    simp only [Option.some_bind, run] at hrun
    cases hb : step cfg s1 (.recvAddr w) with
    | none => simp [hb] at hrun
    | some s2 =>
      simp only [hb, Option.some_bind] at hrun
      obtain ⟨j0, v0, a', rest', hw1, ha', hs2⟩ := step_recvAddr_inv cfg s1 s2 w hb
      have haa : a' = a := by
        rw [haddrs] at ha'
        exact (List.cons.inj ha').1.symm
      have hlt : w < s1.workers.length := (List.getElem?_eq_some.mp hw1).1
      have haddr2 : addrOf s2.workers[w]? = some a := by
        rw [hs2]
        simp only [List.getElem?_set_self hlt]
        simp [addrOf, haa]
      have hq := run_addrOf cfg w a evs2 s2 s (Or.inl haddr2) hlast hrun
      obtain ⟨j, v, hw3, hs4⟩ := step_send_inv cfg s s' w hsend
      have hv : v.addr = a := by
        rw [hw3] at hq
        rcases hq with h | h
        · exact Option.some.inj h
        · simp [addrOf] at h
      have hstage : v.stage = "TLS" := (hjob w _ hw3).2.1
      refine ⟨formatInt (unixMilli v.startTime), j, v.code,
        formatInt (milliseconds (timeSub s.now v.startTime)), ?_⟩
      rw [hs4]
      simp [record, hstage, hv]

/-- C13, on the sample run with a reset in `hello`, after the record was sent: one record
for `example.com`, which occurs once in the input, and none for the empty domain. -/
theorem records_shape_witness :
    sampleSent.results.countP (domainIs "example.com") +
        sampleSent.workers.countP (busyWith "example.com") +
        sampleSent.jobs.count "example.com" ≤
        ["example.com", "example.org"].count "example.com" ∧
      sampleSent.results.countP (domainIs "") = 0 :=
  have h := records_shape sampleCfg ["example.com", "example.org"]
    ["192.0.2.1:443", "192.0.2.2:443"] 1
    [.feedAddr, .feedAddr, .recvJob 0, .tick 1000000000, .recvAddr 0, .tick 5000000,
      .dialDone 0 none, .helloDone 0 none 0 errReadReset, .send 0]
    sampleSent (by decide)
  ⟨h.2.1 "example.com", h.2.2.1⟩

end Sni
